import Mathlib

/-!
Verification development for the `test2witness` C instrumentation engine.

Python strings are modelled as `List Char` (sequences of code points, which is
what Python string indexing and slicing operate on); source coordinates as
`Nat × Nat` pairs `(line, column)` compared lexicographically, exactly like
Python tuple comparison.  Fallible code (a failing `assert`) is modelled with
`Option`.  Each definition is a direct translation of the function of the same
name in `instrument.py` / `pretransforms.py`; deviations forced by totality
(e.g. Python raising `IndexError` on an out-of-range list index) are confined
to regions that the theorems exclude by hypothesis and are noted in place.
-/

set_option maxRecDepth 8000

namespace T2W

abbrev Str := List Char

/-- Code points of a Lean string literal, used to write concrete Python strings. -/
def chars (s : String) : Str := s.data

abbrev Coord := Nat × Nat

/-- Python tuple comparison `a < b` on `(line, column)` pairs (lexicographic). -/
def coordLt (a b : Coord) : Prop := a.1 < b.1 ∨ (a.1 = b.1 ∧ a.2 < b.2)

/-- Python tuple comparison `a <= b` on `(line, column)` pairs (lexicographic). -/
def coordLe (a b : Coord) : Prop := a.1 < b.1 ∨ (a.1 = b.1 ∧ a.2 ≤ b.2)

instance (a b : Coord) : Decidable (coordLt a b) := by unfold coordLt; infer_instance

instance (a b : Coord) : Decidable (coordLe a b) := by unfold coordLe; infer_instance

theorem coordLe_refl (a : Coord) : coordLe a a := Or.inr ⟨rfl, Nat.le_refl _⟩

theorem coordLe_of_lt {a b : Coord} (h : coordLt a b) : coordLe a b := by
  rcases h with h | ⟨h1, h2⟩
  · exact Or.inl h
  · exact Or.inr ⟨h1, Nat.le_of_lt h2⟩

theorem coordLe_trans {a b c : Coord} (h1 : coordLe a b) (h2 : coordLe b c) :
    coordLe a c := by
  rcases h1 with h1 | ⟨h1, h1c⟩ <;> rcases h2 with h2 | ⟨h2, h2c⟩ <;>
    unfold coordLe <;> omega

theorem coordLe_of_not_lt {a b : Coord} (h : ¬ coordLt a b) : coordLe b a := by
  unfold coordLt at h
  unfold coordLe
  omega

/-- A patch: an insertion of `text` at a coordinate (`self._state.instrumentation`
entries are `(pos, text)` pairs). -/
abbrev Patch := Coord × Str

/-- Python slice `s[i:j]` on a string (clamping, never failing). -/
def pySlice (s : Str) (i j : Nat) : Str := (s.take j).drop i

/-- Python slice `s[i:]` on a string. -/
def pySliceFrom (s : Str) (i : Nat) : Str := s.drop i

/-- `source_lines[i]`.  Python raises `IndexError` when `i` is out of range;
the model returns `[]` there, and every theorem touching this region carries a
bound keeping the index in range. -/
def getLine (src : List Str) (i : Nat) : Str := src.getD i []

namespace ProgramInstrumenter

/-- The `while current_pos[0] < pos[0]` loop of `ProgramInstrumenter.code`:
emits `source_lines[current][col:] + "\n"` for each full line crossed, with the
column reset to `0` after the first line.  `k` counts the remaining iterations
(`pos[0] - current_pos[0]`). -/
def copyLinesGo (src : List Str) : Nat → Nat → Nat → Str
  | 0, _, _ => []
  | k+1, line, col =>
      pySliceFrom (getLine src line) col ++ ['\n'] ++ copyLinesGo src k (line+1) 0

/-- Original text copied by one iteration of the reconstruction loop when
`current_pos < pos`: full lines first, then the partial line up to `pos[1]`. -/
def copySegment (src : List Str) (cur pos : Coord) : Str :=
  let head := copyLinesGo src (pos.1 - cur.1) cur.1 cur.2
  let col := if cur.1 < pos.1 then 0 else cur.2
  head ++ (if col < pos.2 then pySlice (getLine src pos.1) col pos.2 else [])

/-- The `for pos, annotation in instrumentation` loop of
`ProgramInstrumenter.code`: copy original text up to `pos` when the cursor is
strictly before it, then append the patch text; the cursor only moves forward. -/
def reconLoop (src : List Str) : Coord → List Patch → Str
  | _, [] => []
  | cur, (pos, txt) :: rest =>
      if coordLt cur pos then copySegment src cur pos ++ txt ++ reconLoop src pos rest
      else txt ++ reconLoop src cur rest

/-- One step of a stable insertion sort on patch coordinates: the new element
goes after every element whose coordinate is strictly smaller, and before the
first element whose coordinate is not, so that elements with equal coordinates
keep their original relative order — the behaviour of Python's stable
`sorted(..., key = lambda x: x[0])`. -/
def insertSorted (p : Patch) : List Patch → List Patch
  | [] => [p]
  | q :: qs => if coordLt q.1 p.1 then q :: insertSorted p qs else p :: q :: qs

/-- Stable sort of the patch list by coordinate, modelling
`sorted(self._state.instrumentation, key = lambda x: x[0])`. -/
def sortPatches (l : List Patch) : List Patch := l.foldr insertSorted []

/-- `ProgramInstrumenter.code`: with no patches, return `"\n".join(source_lines)`;
otherwise sort the patches, append the sentinel `((len(source_lines), 0), "")`,
and run the reconstruction loop from `(0, 0)`. -/
def code (sourceLines : List Str) (ins : List Patch) : Str :=
  if ins = [] then List.intercalate ['\n'] sourceLines
  else reconLoop sourceLines (0,0) (sortPatches ins ++ [((sourceLines.length, 0), [])])

/-- The original document from line `l` on, each remaining line (including the
last) terminated by a newline — the text the reconstruction loop's line-copying
produces when it crosses those lines. -/
def tailText (src : List Str) (l : Nat) : Str :=
  ((src.drop l).map (fun s => s ++ ['\n'])).flatten

/-- The original document from coordinate `p` on (rest of line `p.1` from
column `p.2`, then all later lines), newline-terminated. -/
def textFrom (src : List Str) (p : Coord) : Str :=
  if p.1 < src.length then pySliceFrom (getLine src p.1) p.2 ++ ['\n'] ++ tailText src (p.1+1)
  else []

/-- The whole document with every line newline-terminated. -/
def docText (src : List Str) : Str := (src.map (fun s => s ++ ['\n'])).flatten

/-- The original-text segments the reconstruction loop copies before each
patch (empty when the loop's cursor has already reached the patch coordinate). -/
def segs (src : List Str) : Coord → List Patch → List Str
  | _, [] => []
  | cur, (pos, _) :: rest =>
      if coordLt cur pos then copySegment src cur pos :: segs src pos rest
      else [] :: segs src cur rest

/-- The loop cursor after consuming a patch list. -/
def endCur (cur : Coord) (ps : List Patch) : Coord :=
  ps.foldl (fun c p => if coordLt c p.1 then p.1 else c) cur

/-- Conclusion bundle for claim C1: the reconstructor's output decomposes into
original-text segments interleaved (one for one) with the stably-sorted patch
texts; the segments concatenate to the newline-terminated document; and the
sorted list is a permutation of the recorded patches. -/
def InsertionDecomposition (src : List Str) (ins : List Patch) : Prop :=
  ProgramInstrumenter.code src ins
      = (List.zipWith (fun s (p : Patch) => s ++ p.2)
          (segs src (0,0) (sortPatches ins ++ [((src.length, 0), [])]))
          (sortPatches ins ++ [((src.length, 0), [])])).flatten
  ∧ (segs src (0,0) (sortPatches ins ++ [((src.length, 0), [])])).flatten = docText src
  ∧ (segs src (0,0) (sortPatches ins ++ [((src.length, 0), [])])).length
      = (sortPatches ins ++ [((src.length, 0), [])]).length
  ∧ List.Perm (sortPatches ins) ins


end ProgramInstrumenter

/-! ### Syntax tree model -/

/-- A syntax node as supplied by the external tree interface (spec §6): a kind
tag, start and end coordinates, the exact source text the node spans (the
`self.ast.match(node)` capability), and the ordered children, each optionally
tagged with its field name (`child_by_field_name` looks fields up among the
children). -/
inductive Node where
  | mk (type : String) (startPoint endPoint : Coord) (text : Str)
      (children : List (Option String × Node))

def Node.type : Node → String
  | .mk t _ _ _ _ => t

def Node.startPoint : Node → Coord
  | .mk _ s _ _ _ => s

def Node.endPoint : Node → Coord
  | .mk _ _ e _ _ => e

def Node.text : Node → Str
  | .mk _ _ _ tx _ => tx

def Node.children : Node → List (Option String × Node)
  | .mk _ _ _ _ ch => ch

/-- First child carrying the given field tag, if any. -/
def fieldIn (ch : List (Option String × Node)) (name : String) : Option Node :=
  ((ch.find? (fun c => c.1 = some name)).map (fun c => c.2))

/-- `node.child_by_field_name(name)`. -/
def Node.field (n : Node) (name : String) : Option Node := fieldIn n.children name

/-- `node.children[i]` (present indices only). -/
def Node.childAt (n : Node) (i : Nat) : Option Node :=
  (n.children[i]?).map (fun c => c.2)

/-- `node.children[-1]` (Python negative index on a non-empty list). -/
def Node.lastChild (n : Node) : Option Node :=
  (n.children.getLast?).map (fun c => c.2)

/-- `ERROR_FUNCS` from `instrument.py`. -/
def ERROR_FUNCS : List Str := [chars "reach_error", chars "__VERIFIER_error"]

/-! ### VariableVisitor (instrument.py, `class VariableVisitor`) -/

mutual
/-- `VariableVisitor.walk(node)`: the collected target nodes in the order
`self.vars.append` runs.  Per-kind rules exactly as in the source: identifiers
and whole field-access expressions are targets; a subscript first walks only
its index, then adds itself as a target; calls walk only the argument list;
casts walk only the last child; `sizeof` walks only its value; pointer
dereference and literals are opaque; every other kind (assignment, binary,
unary, update, conditional, parenthesized, and any unlisted kind) descends
into all children. -/
def varWalk (n : Node) : List Node :=
  match n with
  | .mk ty _ _ _ ch =>
    if ty = "identifier" then [n]
    else if ty = "call_expression" then varWalkField "arguments" ch
    else if ty = "subscript_expression" then varWalkField "index" ch ++ [n]
    else if ty = "cast_expression" then varWalkLast ch
    else if ty = "pointer_expression" then []
    else if ty = "sizeof_expression" then varWalkField "value" ch
    else if ty = "field_expression" then [n]
    else if ty = "compound_literal_expression" then []
    else if ty = "number_literal" then []
    else if ty = "string_literal" then []
    else if ty = "true" then []
    else if ty = "false" then []
    else if ty = "null" then []
    else if ty = "concatenated_string" then []
    else if ty = "char_literal" then []
    else varWalkList ch

/-- Walk the first child tagged with the given field name
(`self.walk(node.child_by_field_name(name))`); nothing when the field is
absent. -/
def varWalkField (name : String) : List (Option String × Node) → List Node
  | [] => []
  | (t, c) :: rest => if t = some name then varWalk c else varWalkField name rest

/-- Walk the last child (`self.walk(node.children[-1])`). -/
def varWalkLast : List (Option String × Node) → List Node
  | [] => []
  | [(_, c)] => varWalk c
  | _ :: rest => varWalkLast rest

/-- Default descent into all children. -/
def varWalkList : List (Option String × Node) → List Node
  | [] => []
  | (_, c) :: rest => varWalk c ++ varWalkList rest
end

/-- First-occurrence deduplication, modelling Python `set(...)` of the matched
texts.  Python's set iteration order is unspecified; no claim depends on the
order, only on the underlying set of texts. -/
def dedupAux : List Str → List Str → List Str
  | _, [] => []
  | seen, s :: rest => if s ∈ seen then dedupAux seen rest else s :: dedupAux (s :: seen) rest

def dedupStr (l : List Str) : List Str := dedupAux [] l

/-- `set(self.ast.match(n) for n in visitor.vars)`: the write- (or read-)
target texts of a statement or condition subtree. -/
def collectTargets (n : Node) : List Str := dedupStr ((varWalk n).map Node.text)

/-! ### Instrumenter observations and handlers (instrument.py) -/

/-- One trace observation as assembled by the instrumenter before JSON
serialisation: the `output` dict of `_handle_error`,
`leave_expression_statement` and `_write_condition`; keys absent from the
dict are `none`.  Line numbers are `Int` because `_write_condition` resolves
`-1` defaults before the `1 +` shift. -/
structure Observation where
  sourcecode : Str
  startline : Int
  endline : Int
  control : Option Str
  assumption : Option Str
  assumptionScope : Option Str
deriving DecidableEq

/-- One recorded instrumentation entry before rendering: either a raw
`self.instrument(text, pos)` insertion (the synthetic braces) or a
`printf_json(object, track_args, pos)` observation. -/
inductive Emission where
  | raw (s : Str)
  | obs (o : Observation) (trackArgs : List Str)
deriving DecidableEq

abbrev IPatch := Coord × Emission

/-- `";".join([f"{var} == (%d)" for var in written_vars] + [""])`. -/
def mkAssumption (vars : List Str) : Str :=
  List.intercalate (chars ";") (vars.map (fun v => v ++ chars " == (%d)") ++ [[]])

/-- `".".join(self.scope)`. -/
def scopePath (scope : List Str) : Str := List.intercalate (chars ".") scope

/-- `Instrumenter._handle_error`: one observation at the statement's start
coordinate with source text and 1-based lines; no assumption, no track
arguments. -/
def handle_error (n : Node) : IPatch :=
  (n.startPoint,
    Emission.obs
      (Observation.mk n.text (1 + (n.startPoint.1 : Int)) (1 + (n.endPoint.1 : Int))
        none none none)
      [])

/-- `Instrumenter.visit_expression_statement`: when the statement's first
child is a call whose callee text is an error-marker name, `_handle_error`
fires; the handler always lets traversal continue into the children.  (Python
would raise on a childless statement or an absent `function` field; the model
emits nothing there and the theorems keep out of that region.) -/
def visit_expression_statement (n : Node) : List IPatch :=
  match n.children.head? with
  | none => []
  | some (_, st) =>
    if st.type = "call_expression" then
      match st.field "function" with
      | none => []
      | some f => if f.text ∈ ERROR_FUNCS then [handle_error n] else []
    else []

/-- `Instrumenter.leave_expression_statement`: always emits one observation at
the statement's end coordinate carrying source text and 1-based lines; the
assumption (one equality clause per written variable) and the dot-joined
scope are attached exactly when the collected write-target set is non-empty,
and the written variables are the emission's track arguments. -/
def leave_expression_statement (scope : List Str) (n : Node) : IPatch :=
  (n.endPoint,
    Emission.obs
      (Observation.mk n.text (1 + (n.startPoint.1 : Int)) (1 + (n.endPoint.1 : Int)) none
        (if collectTargets n ≠ [] then some (mkAssumption (collectTargets n)) else none)
        (if collectTargets n ≠ [] then some (scopePath scope) else none))
      (collectTargets n))

/-- `Instrumenter._write_condition`, with the `-1` defaults of `startline` and
`endline` resolved exactly as in the source. -/
def write_condition (scope : List Str) (condition : Str) (trueBranch : Bool)
    (changedVars : List Str) (pos : Coord) (startline endline : Int) : IPatch :=
  let startline2 := if startline = -1 then (pos.1 : Int) else startline
  let endline2 := if endline = -1 then startline2 else endline
  let sourcecode := chars "[" ++ (if trueBranch then condition
      else chars "!(" ++ condition ++ chars ")") ++ chars "]"
  (pos,
    Emission.obs
      (Observation.mk sourcecode (1 + startline2) (1 + endline2)
        (some (if trueBranch then chars "condition-true" else chars "condition-false"))
        (if changedVars ≠ [] then some (mkAssumption changedVars) else none)
        (if changedVars ≠ [] then some (scopePath scope) else none))
      changedVars)

/-- `Instrumenter._write_condition_node`: read targets of the condition, then
`_write_condition` at the consequence's start point (or end point when
`skip`), with the condition's own start/end lines. -/
def write_condition_node (scope : List Str) (conditionNode consequenceNode : Node)
    (trueBranch : Bool) (skip : Bool) : IPatch :=
  write_condition scope conditionNode.text trueBranch (collectTargets conditionNode)
    (if skip then consequenceNode.endPoint else consequenceNode.startPoint)
    (conditionNode.startPoint.1 : Int) (conditionNode.endPoint.1 : Int)

/-- `Instrumenter.visit_if_statement`: for each present branch, insert a
synthetic opening brace at the branch's **start** when it is not a compound
statement (otherwise step to the block's `children[1]`), then emit the branch
observation via `_write_condition_node` (true branch for the consequence,
negated for the alternative). -/
def visit_if_statement (scope : List Str) (n : Node) : List IPatch :=
  match n.field "condition" with
  | none => []
  | some condN =>
    (match n.field "consequence" with
     | none => []
     | some cons =>
       if cons.type ≠ "compound_statement" then
         [(cons.startPoint, Emission.raw (chars "\x7b\n")),
          write_condition_node scope condN cons true false]
       else
         match cons.childAt 1 with
         | some c1 => [write_condition_node scope condN c1 true false]
         | none => [])
    ++
    (match n.field "alternative" with
     | none => []
     | some alt =>
       if alt.type ≠ "compound_statement" then
         [(alt.startPoint, Emission.raw (chars "\x7b\n")),
          write_condition_node scope condN alt false false]
       else
         match alt.childAt 1 with
         | some a1 => [write_condition_node scope condN a1 false false]
         | none => [])

/-- `Instrumenter.leave_if_statement`: a synthetic closing brace at the end of
each present non-compound branch. -/
def leave_if_statement (n : Node) : List IPatch :=
  (match n.field "consequence" with
   | none => []
   | some cons =>
     if cons.type ≠ "compound_statement" then
       [(cons.endPoint, Emission.raw (chars "\n\x7d"))] else [])
  ++
  (match n.field "alternative" with
   | none => []
   | some alt =>
     if alt.type ≠ "compound_statement" then
       [(alt.endPoint, Emission.raw (chars "\n\x7d"))] else [])

/-- `Instrumenter.visit_for_statement`: the body is `children[-1]`; when it is
not a compound statement the source inserts the synthetic opening brace at
the body's **end** coordinate (`pos = consequence.end_point` — unlike
`visit_if_statement`, which uses the start), otherwise it steps to the
block's `children[1]`; then the condition-true observation is emitted at the
(possibly re-targeted) body's start. -/
def visit_for_statement (scope : List Str) (n : Node) : List IPatch :=
  match n.lastChild with
  | none => []
  | some consRaw =>
    (if consRaw.type ≠ "compound_statement" then
        [(consRaw.endPoint, Emission.raw (chars "\x7b\n"))] else [])
    ++
    (match n.field "condition",
        (if consRaw.type ≠ "compound_statement" then some consRaw else consRaw.childAt 1) with
     | some condN, some c => [write_condition_node scope condN c true false]
     | _, _ => [])

/-- `Instrumenter.leave_for_statement`: closing brace at the body's end for a
non-compound body, then the condition-false observation with `skip = True`
(at the raw body's end point). -/
def leave_for_statement (scope : List Str) (n : Node) : List IPatch :=
  match n.lastChild with
  | none => []
  | some cons =>
    (if cons.type ≠ "compound_statement" then
        [(cons.endPoint, Emission.raw (chars "\n\x7d"))] else [])
    ++
    (match n.field "condition" with
     | some condN => [write_condition_node scope condN cons false true]
     | none => [])

/-- `Instrumenter.visit_while_statement` — body identical to
`visit_for_statement` in the source. -/
def visit_while_statement : List Str → Node → List IPatch := visit_for_statement

/-- `Instrumenter.leave_while_statement` — body identical to
`leave_for_statement` in the source. -/
def leave_while_statement : List Str → Node → List IPatch := leave_for_statement

/-- `Instrumenter.visit_do_statement` — as `visit_for_statement` but the body
is looked up through the `body` field instead of `children[-1]`. -/
def visit_do_statement (scope : List Str) (n : Node) : List IPatch :=
  match n.field "body" with
  | none => []
  | some consRaw =>
    (if consRaw.type ≠ "compound_statement" then
        [(consRaw.endPoint, Emission.raw (chars "\x7b\n"))] else [])
    ++
    (match n.field "condition",
        (if consRaw.type ≠ "compound_statement" then some consRaw else consRaw.childAt 1) with
     | some condN, some c => [write_condition_node scope condN c true false]
     | _, _ => [])

/-- `Instrumenter.leave_do_statement` — as `leave_for_statement` but through
the `body` field. -/
def leave_do_statement (scope : List Str) (n : Node) : List IPatch :=
  match n.field "body" with
  | none => []
  | some cons =>
    (if cons.type ≠ "compound_statement" then
        [(cons.endPoint, Emission.raw (chars "\n\x7d"))] else [])
    ++
    (match n.field "condition" with
     | some condN => [write_condition_node scope condN cons false true]
     | none => [])

/-- `Instrumenter.visit_function_definition`: function name via
`declarator.declarator`, which the assert demands be an identifier; push the
name on the scope; skip the subtree when the name is an error marker.  `none`
models the raised assert (or Python's attribute error on a missing
declarator), which aborts instrumentation of the file. -/
def visit_function_definition (scope : List Str) (n : Node) :
    Option (List Str × Bool) :=
  match n.field "declarator" with
  | none => none
  | some decl =>
    match decl.field "declarator" with
    | none => none
    | some fn =>
      if fn.type = "identifier" then some (scope ++ [fn.text], fn.text ∈ ERROR_FUNCS)
      else none

/-! ### The composed traversal (location pass + instrumenter) -/

/-- Shared traversal state: the location cursor, the scope stack, and the
accumulated instrumentation list. -/
structure IState where
  line : Nat
  lineOffset : Nat
  scope : List Str
  ins : List IPatch
deriving DecidableEq

/-- The `Instrumenter` entry hooks, dispatched on the node type exactly as the
visitor framework dispatches `visit_<type>`; returns emitted patches, the
skip-children flag and the new scope, or `none` when the handler raises.
Types without a handler — including the ignored statement kinds, which just
return `True` — contribute nothing and descend. -/
def instrVisit (scope : List Str) (n : Node) :
    Option (List IPatch × Bool × List Str) :=
  if n.type = "function_definition" then
    match visit_function_definition scope n with
    | none => none
    | some (scope2, skip) => some ([], skip, scope2)
  else if n.type = "expression_statement" then
    some (visit_expression_statement n, false, scope)
  else if n.type = "if_statement" then some (visit_if_statement scope n, false, scope)
  else if n.type = "for_statement" then some (visit_for_statement scope n, false, scope)
  else if n.type = "while_statement" then some (visit_while_statement scope n, false, scope)
  else if n.type = "do_statement" then some (visit_do_statement scope n, false, scope)
  else some ([], false, scope)

/-- The `Instrumenter` exit hooks (`leave_<type>`): emitted patches and the
new scope (`leave_function_definition` pops). -/
def instrLeave (scope : List Str) (n : Node) : List IPatch × List Str :=
  if n.type = "function_definition" then ([], scope.dropLast)
  else if n.type = "expression_statement" then ([leave_expression_statement scope n], scope)
  else if n.type = "if_statement" then (leave_if_statement n, scope)
  else if n.type = "for_statement" then (leave_for_statement scope n, scope)
  else if n.type = "while_statement" then (leave_while_statement scope n, scope)
  else if n.type = "do_statement" then (leave_do_statement scope n, scope)
  else ([], scope)

mutual
/-- Modelled from the spec (§4.1, the Traversal/Visitor Framework, which is
the external `code_ast` visitor machinery and not among this repository's
source files): one depth-first left-to-right traversal; at node entry the
location pass runs first (assert cursor ≤ start coordinate, then cursor :=
start), then the instrumenter's entry hook; a skip prevents the whole
composition from descending into the children; at node exit the location
pass sets cursor := end and the instrumenter's exit hook runs.  `none`
models an uncaught exception aborting the file's instrumentation. -/
def runNode : Node → IState → Option IState
  | .mk ty s e tx ch, st =>
    if coordLe (st.line, st.lineOffset) s then
      match instrVisit st.scope (.mk ty s e tx ch) with
      | none => none
      | some (patches, skip, scope2) =>
        match (if skip then some (IState.mk s.1 s.2 scope2 (st.ins ++ patches))
               else runChildren ch (IState.mk s.1 s.2 scope2 (st.ins ++ patches))) with
        | none => none
        | some st2 =>
          let lp := instrLeave st2.scope (.mk ty s e tx ch)
          some (IState.mk e.1 e.2 lp.2 (st2.ins ++ lp.1))
    else none

def runChildren : List (Option String × Node) → IState → Option IState
  | [], st => some st
  | (_, c) :: rest, st =>
    match runNode c st with
    | none => none
    | some st2 => runChildren rest st2
end

mutual
/-- The `LocationAnalysis` pass on its own over a tree: on entry, assert the
node's start coordinate is ≥ the cursor and move the cursor to it; on exit,
move the cursor to the end coordinate; `none` models the failed assert. -/
def locRun : Node → Coord → Option Coord
  | .mk _ s e _ ch, cur =>
    if coordLe cur s then
      match locRunList ch s with
      | some _ => some e
      | none => none
    else none

def locRunList : List (Option String × Node) → Coord → Option Coord
  | [], cur => some cur
  | (_, c) :: rest, cur =>
    match locRun c cur with
    | some cur2 => locRunList rest cur2
    | none => none
end

mutual
/-- The traversal's event stream: `(true, start)` at each node entry,
`(false, end)` at each node exit, children in order in between. -/
def evList : Node → List (Bool × Coord)
  | .mk _ s e _ ch => (true, s) :: (evListCh ch ++ [(false, e)])

def evListCh : List (Option String × Node) → List (Bool × Coord)
  | [] => []
  | (_, c) :: rest => evList c ++ evListCh rest
end

/-- Monotonicity of an event stream as the location pass asserts it: every
*entry* coordinate is ≥ the coordinate of the immediately preceding event
(the current cursor); exit events move the cursor without a check. -/
def entriesMono : Coord → List (Bool × Coord) → Bool
  | _, [] => true
  | cur, (isEntry, p) :: rest =>
      (decide (coordLe cur p) || !isEntry) && entriesMono p rest

/-- Coordinate of the last event, or the start cursor for an empty stream. -/
def lastCoord (cur : Coord) : List (Bool × Coord) → Coord
  | [] => cur
  | ev :: rest => lastCoord ev.2 rest

mutual
/-- Natural well-orderedness of a parse tree: each node's start ≤ end, its
first child starts at or after the node's start, consecutive children do not
overlap (previous end ≤ next start), recursively.  Well-formed parse trees
satisfy this. -/
def nodeOrdered : Node → Bool
  | .mk _ s e _ ch => decide (coordLe s e) && childrenOrdered s ch

def childrenOrdered : Coord → List (Option String × Node) → Bool
  | _, [] => true
  | cur, (_, c) :: rest =>
      decide (coordLe cur c.startPoint) && nodeOrdered c && childrenOrdered c.endPoint rest
end

/-- Node kinds for which the instrumenter's handlers emit patches. -/
def targetKinds : List String :=
  ["expression_statement", "if_statement", "for_statement", "while_statement",
   "do_statement"]

mutual
/-- No node of the tree is of an instrumented statement kind, and every
function definition in it has the identifier-shaped declarator the
instrumenter's assert demands. -/
def quietTree : Node → Bool
  | .mk ty _ _ _ ch =>
      !(decide (ty ∈ targetKinds)) &&
      (if ty = "function_definition" then
          (match fieldIn ch "declarator" with
           | none => false
           | some decl =>
             match decl.field "declarator" with
             | none => false
             | some fn => fn.type = "identifier")
        else true) &&
      quietList ch

def quietList : List (Option String × Node) → Bool
  | [] => true
  | (_, c) :: rest => quietTree c && quietList rest
end

/-! ### Rendering of recorded entries (`printf_json` / `printf`) -/

/-- `html.escape(value, quote = True)` as `printf_json` applies it to the
`sourcecode` value. -/
def htmlEscapeChar (c : Char) : Str :=
  if c = '&' then chars "&amp;"
  else if c = '<' then chars "&lt;"
  else if c = '>' then chars "&gt;"
  else if c = '"' then chars "&quot;"
  else if c = Char.ofNat 39 then chars "&#x27;"
  else [c]

def htmlEscape (s : Str) : Str := s.flatMap htmlEscapeChar

/-- JSON string escaping as `json.dumps` performs it on the characters this
pipeline produces (quote, backslash and whitespace controls; other source
characters pass through). -/
def jsonEscapeChar (c : Char) : Str :=
  if c = '"' then ['\\', '"']
  else if c = '\\' then ['\\', '\\']
  else if c = '\n' then ['\\', 'n']
  else if c = '\t' then ['\\', 't']
  else if c = '\r' then ['\\', 'r']
  else [c]

def jsonStr (s : Str) : Str := '"' :: (s.flatMap jsonEscapeChar ++ ['"'])

def digitChar (n : Nat) : Char := Char.ofNat (48 + n)

def natReprGo : Nat → Nat → Str
  | 0, _ => []
  | fuel+1, n => if n < 10 then [digitChar n] else natReprGo fuel (n / 10) ++ [digitChar (n % 10)]

def natRepr (n : Nat) : Str := natReprGo (n + 1) n

def intRepr (i : Int) : Str :=
  if i < 0 then '-' :: natRepr i.natAbs else natRepr i.natAbs

/-- `json.dumps(output)` for the observation dicts this instrumenter builds:
keys in insertion order (`sourcecode`, `startline`, `endline`, then `control`
for branch records, then `assumption` and `assumption.scope` when present),
default separators, the `sourcecode` value HTML-escaped first. -/
def jsonDumps (o : Observation) : Str :=
  ['\x7b']
  ++ chars "\"sourcecode\": " ++ jsonStr (htmlEscape o.sourcecode)
  ++ chars ", \"startline\": " ++ intRepr o.startline
  ++ chars ", \"endline\": " ++ intRepr o.endline
  ++ (match o.control with
      | some c => chars ", \"control\": " ++ jsonStr c
      | none => [])
  ++ (match o.assumption with
      | some a => chars ", \"assumption\": " ++ jsonStr a
      | none => [])
  ++ (match o.assumptionScope with
      | some sc => chars ", \"assumption.scope\": " ++ jsonStr sc
      | none => [])
  ++ ['\x7d']

/-- `text.encode("utf-8").decode("unicode-escape")`: backslash escapes in the
JSON line are interpreted (`\"`, `\\`, `\n`, `\t`, `\r`); unknown escapes keep
their backslash, as `unicode-escape` does. -/
def unicodeUnescape : Str → Str
  | [] => []
  | '\\' :: c :: rest =>
      if c = '"' then '"' :: unicodeUnescape rest
      else if c = '\\' then '\\' :: unicodeUnescape rest
      else if c = 'n' then '\n' :: unicodeUnescape rest
      else if c = 't' then '\t' :: unicodeUnescape rest
      else if c = 'r' then '\r' :: unicodeUnescape rest
      else '\\' :: c :: unicodeUnescape rest
  | c :: rest => c :: unicodeUnescape rest

/-- `s.isPrefixOf t` on code-point lists. -/
def isPrefixB : Str → Str → Bool
  | [], _ => true
  | _ :: _, [] => false
  | a :: as, b :: bs => a = b && isPrefixB as bs

/-- Python `re.sub(pat, repl, s)` for a **literal** pattern (equivalently
`s.replace(pat, repl)`): replace every non-overlapping occurrence, scanning
left to right.  All restoration entries the theorems exercise are literal
(the keyword entries of `support_extensions`); the guard on the empty pattern
is never hit by those. -/
def pyReSubGo (pat repl : Str) : Nat → Str → Str
  | 0, s => s
  | _+1, [] => []
  | fuel+1, c :: rest =>
    if pat ≠ [] && isPrefixB pat (c :: rest) then
      repl ++ pyReSubGo pat repl fuel ((c :: rest).drop pat.length)
    else c :: pyReSubGo pat repl fuel rest

def pyReSub (pat repl s : Str) : Str := pyReSubGo pat repl s.length s

/-- A *single first-match* substitution — `re.sub(pat, repl, s, 1)` for a
literal pattern; this is what the spec's words describe for the restoration
loop.  (Definition written from the spec, for comparison with the source's
`applyRestorations` below.) -/
def pyReSubFirst (pat repl : Str) : Str → Str
  | [] => []
  | c :: rest =>
    if pat ≠ [] && isPrefixB pat (c :: rest) then repl ++ (c :: rest).drop pat.length
    else c :: pyReSubFirst pat repl rest

/-- `Instrumenter.printf`: unicode-escape the text, re-escape newlines and
quotes, and wrap it in `\nfprintf(stderr, "...\n"{track_args});\n` with the
track arguments appended after a comma. -/
def printfText (text : Str) (trackArgs : List Str) : Str :=
  let text2 := pyReSub ['"'] ['\\', '"'] (pyReSub ['\n'] ['\\', 'n'] (unicodeUnescape text))
  let argsPart := if trackArgs = [] then ([] : Str)
      else ',' :: List.intercalate (chars ",") trackArgs
  chars "\nfprintf(stderr, \"" ++ text2 ++ chars "\\n\"" ++ argsPart ++ chars ");\n"

/-- Rendered text of one recorded instrumentation entry: raw `instrument`
texts verbatim; observations serialised by `json.dumps` and wrapped by
`printf`. -/
def renderPatch (p : IPatch) : Patch :=
  (p.1, match p.2 with
    | Emission.raw s => s
    | Emission.obs o args => printfText (jsonDumps o) args)

/-! ### Lexical pre/post-transform (pretransforms.py) -/

/-- Scan a quoted literal after its opening quote: `\c` pairs are consumed
whole, the literal ends at the first unescaped closing quote; `none` when
unterminated (the regex alternative then fails to match).  Models the
alternatives matching single- and double-quoted literals in
`remove_comments`. -/
def scanQuoted (q : Char) : Nat → Str → Option (Str × Str)
  | 0, _ => none
  | _+1, [] => none
  | fuel+1, c :: rest =>
    if c = q then some ([c], rest)
    else if c = '\\' then
      match rest with
      | [] => none
      | d :: rest2 =>
        match scanQuoted q fuel rest2 with
        | some pr => some (c :: d :: pr.1, pr.2)
        | none => none
    else
      match scanQuoted q fuel rest with
      | some pr => some (c :: pr.1, pr.2)
      | none => none

/-- Remainder of `s` after the first occurrence of `pat`, if any. -/
def afterSub (pat : Str) : Str → Option Str
  | [] => if pat = [] then some [] else none
  | c :: rest =>
    if isPrefixB pat (c :: rest) then some ((c :: rest).drop pat.length)
    else afterSub pat rest

/-- Substring test (`pat in s`). -/
def hasSub (s pat : Str) : Bool := (afterSub pat s).isSome

/-- `pretransforms.remove_comments`, as a character-level scanner equivalent
to the source's regex: `//` comments (up to, excluding, the line end) and
terminated `/* */` comments are replaced by a single space; quoted string and
character literals are copied verbatim, protecting comment markers inside
them; an unterminated construct fails its alternative and its first character
is copied through, as the regex engine does. -/
def remove_comments_go : Nat → Str → Str
  | 0, s => s
  | fuel+1, s =>
    match s with
    | [] => []
    | c :: rest =>
      if isPrefixB (chars "//") s then
        ' ' :: remove_comments_go fuel ((s.drop 2).dropWhile (fun d => d ≠ '\n'))
      else if isPrefixB (chars "/*") s then
        match afterSub (chars "*/") (s.drop 2) with
        | some rem => ' ' :: remove_comments_go fuel rem
        | none => c :: remove_comments_go fuel rest
      else if c = Char.ofNat 39 then
        match scanQuoted (Char.ofNat 39) rest.length rest with
        | some pr => c :: (pr.1 ++ remove_comments_go fuel pr.2)
        | none => c :: remove_comments_go fuel rest
      else if c = '"' then
        match scanQuoted '"' rest.length rest with
        | some pr => c :: (pr.1 ++ remove_comments_go fuel pr.2)
        | none => c :: remove_comments_go fuel rest
      else c :: remove_comments_go fuel rest

def remove_comments (s : Str) : Str := remove_comments_go s.length s

/-- The restoration loop of `support_extensions`:
`for pair in replacings: code = re.sub(pair[0], pair[1], code)` — each entry
applied exactly once, in creation order; `re.sub` without a count argument
replaces **every** match. -/
def applyRestorations (replacings : List (Str × Str)) (code : Str) : Str :=
  replacings.foldl (fun c pr => pyReSub pr.1 pr.2 c) code

/-- What the spec's words describe instead: each recorded restoration applied
as a single first-match substitution, in creation order.  (Definition written
from the spec, for comparison with `applyRestorations`.) -/
def applyRestorationsFirstMatch (replacings : List (Str × Str)) (code : Str) : Str :=
  replacings.foldl (fun c pr => pyReSubFirst pr.1 pr.2 c) code

/-- An occurrence of `pat` in `code` not immediately preceded by `pre`
(`re.search(f"(?<!__){keyword}", code)` with `pre = "__"`). -/
def occursNotPrecededBy (code pat pre : Str) : Bool :=
  (List.range (code.length + 1)).any
    (fun i => isPrefixB pat (code.drop i) && !(isPrefixB pre.reverse (code.take i).reverse))

/-- One iteration of the `for keyword in ("inline", "restrict")` masking loop
of `support_extensions`: when `__keyword ` occurs and no bare occurrence of
the keyword does, strip the double underscore everywhere and record the
literal restoration entry `(keyword, "__keyword")`. -/
def keywordStep (kw : Str) : Str × List (Str × Str) → Str × List (Str × Str)
  | (code, replacings) =>
    if hasSub code (chars "__" ++ kw ++ chars " ")
        && !occursNotPrecededBy code kw (chars "__") then
      (pyReSub (chars "__" ++ kw) kw code, replacings ++ [(kw, chars "__" ++ kw)])
    else (code, replacings)

/-- The `instrument` → `support_extensions` → `_instrument` →
`ProgramInstrumenter.code` pipeline over one file.  Inputs: the file's text,
plus the external parser's view of the post-masking text — its line list and
tree (the spec-§6 capability; theorems tie `source` and `lines` together by
hypothesis).  The `__extension__` masking branch (`unsupported_to_extern`'s
brace scan) and the attribute/`__const` extern rewrite loop are outside this
embedding: their firing tests are translated from the source (the literal
substring search for `__extension__`; any match of the extern/attribute regex
necessarily contains the literal `"__attribute__"` or `"__const "`, so the
absence of both implies the loop cannot fire), and the model returns `none`
when one would fire.  On inputs where neither fires, the recorded replacings
are exactly the keyword entries and the model is exact. -/
def instrumentPipeline (source : Str) (lines : List Str) (tree : Node) :
    Option Str :=
  let source1 := remove_comments source
  if hasSub source1 (chars "__extension__") then none
  else
    let masked := keywordStep (chars "restrict") (keywordStep (chars "inline") (source1, []))
    if hasSub masked.1 (chars "__attribute__") || hasSub masked.1 (chars "__const ") then none
    else
      match runNode tree (IState.mk 0 0 [] []) with
      | none => none
      | some st =>
        some (chars "#include <stdio.h>\n"
          ++ applyRestorations masked.2
              (ProgramInstrumenter.code lines (st.ins.map renderPatch)))

/-! ### Observation helpers -/

/-- Whether a recorded entry is a `printf_json` observation. -/
def isObs (p : IPatch) : Bool :=
  match p.2 with
  | Emission.obs _ _ => true
  | Emission.raw _ => false

/-- Whether a recorded entry is an observation with the given `control` value. -/
def isCondObs (ctl : Str) (p : IPatch) : Bool :=
  match p.2 with
  | Emission.obs o _ => o.control = some ctl
  | Emission.raw _ => false

/-- The `assumption` field of an observation entry. -/
def obsAssumption : Emission → Option Str
  | Emission.obs o _ => o.assumption
  | Emission.raw _ => none

/-! ### Concrete parse trees for the claims

Shapes and field names follow the tree-sitter C grammar the instrumenter is
written against (`condition` / `consequence` / `alternative` on branches,
`function` / `arguments` on calls, `argument` / `index` on subscripts,
`argument` / `field` on field accesses); anonymous token nodes are included
as untagged children, as in the real trees. -/

/-- An anonymous token node. -/
def anon (ty : String) (s e : Coord) (tx : String) : Node := Node.mk ty s e (chars tx) []

/-- An identifier node. -/
def ident (name : String) (s e : Coord) : Node := Node.mk "identifier" s e (chars name) []

/- `a[f(i)] = b.c + 1;` (claim C5, write side). -/

def c5call : Node :=
  Node.mk "call_expression" (0,2) (0,6) (chars "f(i)")
    [(some "function", ident "f" (0,2) (0,3)),
     (some "arguments",
      Node.mk "argument_list" (0,3) (0,6) (chars "(i)")
        [(none, anon "(" (0,3) (0,4) "("),
         (none, ident "i" (0,4) (0,5)),
         (none, anon ")" (0,5) (0,6) ")")])]

def c5sub : Node :=
  Node.mk "subscript_expression" (0,0) (0,7) (chars "a[f(i)]")
    [(some "argument", ident "a" (0,0) (0,1)),
     (none, anon "[" (0,1) (0,2) "["),
     (some "index", c5call),
     (none, anon "]" (0,6) (0,7) "]")]

def c5field : Node :=
  Node.mk "field_expression" (0,10) (0,13) (chars "b.c")
    [(some "argument", ident "b" (0,10) (0,11)),
     (none, anon "." (0,11) (0,12) "."),
     (some "field", Node.mk "field_identifier" (0,12) (0,13) (chars "c") [])]

def c5bin : Node :=
  Node.mk "binary_expression" (0,10) (0,17) (chars "b.c + 1")
    [(some "left", c5field),
     (none, anon "+" (0,14) (0,15) "+"),
     (some "right", Node.mk "number_literal" (0,16) (0,17) (chars "1") [])]

def c5stmt : Node :=
  Node.mk "expression_statement" (0,0) (0,18) (chars "a[f(i)] = b.c + 1;")
    [(none,
      Node.mk "assignment_expression" (0,0) (0,17) (chars "a[f(i)] = b.c + 1")
        [(some "left", c5sub),
         (none, anon "=" (0,8) (0,9) "="),
         (some "right", c5bin)]),
     (none, anon ";" (0,17) (0,18) ";")]

/- `a[f(i)] + b.c` (claim C5, read side). -/

def c5expr : Node :=
  Node.mk "binary_expression" (0,0) (0,13) (chars "a[f(i)] + b.c")
    [(some "left", c5sub),
     (none, anon "+" (0,8) (0,9) "+"),
     (some "right",
      Node.mk "field_expression" (0,10) (0,13) (chars "b.c")
        [(some "argument", ident "b" (0,10) (0,11)),
         (none, anon "." (0,11) (0,12) "."),
         (some "field", Node.mk "field_identifier" (0,12) (0,13) (chars "c") [])])]

/- `f();` — an expression statement with an empty target set (claim C2). -/

def c2stmt : Node :=
  Node.mk "expression_statement" (0,0) (0,4) (chars "f();")
    [(none,
      Node.mk "call_expression" (0,0) (0,3) (chars "f()")
        [(some "function", ident "f" (0,0) (0,1)),
         (some "arguments",
          Node.mk "argument_list" (0,1) (0,3) (chars "()")
            [(none, anon "(" (0,1) (0,2) "("),
             (none, anon ")" (0,2) (0,3) ")")])]),
     (none, anon ";" (0,3) (0,4) ";")]

/- `reach_error();` — a direct error-marker call statement (claim C4). -/

def c4stmt : Node :=
  Node.mk "expression_statement" (0,0) (0,14) (chars "reach_error();")
    [(none,
      Node.mk "call_expression" (0,0) (0,13) (chars "reach_error()")
        [(some "function", ident "reach_error" (0,0) (0,11)),
         (some "arguments",
          Node.mk "argument_list" (0,11) (0,13) (chars "()")
            [(none, anon "(" (0,11) (0,12) "("),
             (none, anon ")" (0,12) (0,13) ")")])]),
     (none, anon ";" (0,13) (0,14) ";")]

/- `while (c) y = 1;` — a loop with a non-compound body (claim C3). -/

def c3paren : Node :=
  Node.mk "parenthesized_expression" (0,6) (0,9) (chars "(c)")
    [(none, anon "(" (0,6) (0,7) "("),
     (none, ident "c" (0,7) (0,8)),
     (none, anon ")" (0,8) (0,9) ")")]

def c3body : Node :=
  Node.mk "expression_statement" (0,10) (0,16) (chars "y = 1;")
    [(none,
      Node.mk "assignment_expression" (0,10) (0,15) (chars "y = 1")
        [(some "left", ident "y" (0,10) (0,11)),
         (none, anon "=" (0,12) (0,13) "="),
         (some "right", Node.mk "number_literal" (0,14) (0,15) (chars "1") [])]),
     (none, anon ";" (0,15) (0,16) ";")]

def c3while : Node :=
  Node.mk "while_statement" (0,0) (0,16) (chars "while (c) y = 1;")
    [(none, anon "while" (0,0) (0,5) "while"),
     (some "condition", c3paren),
     (some "body", c3body)]

/- `x = 1;` inside a translation unit — no calls, branches or loops, yet an
instrumented statement (claim C7 counterexample). -/

def c7stmt : Node :=
  Node.mk "expression_statement" (0,0) (0,6) (chars "x = 1;")
    [(none,
      Node.mk "assignment_expression" (0,0) (0,5) (chars "x = 1")
        [(some "left", ident "x" (0,0) (0,1)),
         (none, anon "=" (0,2) (0,3) "="),
         (some "right", Node.mk "number_literal" (0,4) (0,5) (chars "1") [])]),
     (none, anon ";" (0,5) (0,6) ";")]

def c7tree : Node :=
  Node.mk "translation_unit" (0,0) (0,6) (chars "x = 1;") [(none, c7stmt)]

/- A quiet file: a lone declaration `int x;` (claim C7 witness). -/

def c7quiet : Node :=
  Node.mk "translation_unit" (0,0) (0,6) (chars "int x;")
    [(none,
      Node.mk "declaration" (0,0) (0,6) (chars "int x;")
        [(some "type", anon "primitive_type" (0,0) (0,3) "int"),
         (some "declarator", ident "x" (0,4) (0,5)),
         (none, anon ";" (0,5) (0,6) ";")])]

/- `if (x > 0) { y = 1; }` — an if without else (claim C8 witness). -/

def c8paren : Node :=
  Node.mk "parenthesized_expression" (0,3) (0,10) (chars "(x > 0)")
    [(none, anon "(" (0,3) (0,4) "("),
     (none,
      Node.mk "binary_expression" (0,4) (0,9) (chars "x > 0")
        [(some "left", ident "x" (0,4) (0,5)),
         (none, anon ">" (0,6) (0,7) ">"),
         (some "right", Node.mk "number_literal" (0,8) (0,9) (chars "0") [])]),
     (none, anon ")" (0,9) (0,10) ")")]

def c8block : Node :=
  Node.mk "compound_statement" (0,11) (0,21) (chars "\x7b y = 1; \x7d")
    [(none, anon "\x7b" (0,11) (0,12) "\x7b"),
     (none,
      Node.mk "expression_statement" (0,13) (0,19) (chars "y = 1;")
        [(none,
          Node.mk "assignment_expression" (0,13) (0,18) (chars "y = 1")
            [(some "left", ident "y" (0,13) (0,14)),
             (none, anon "=" (0,15) (0,16) "="),
             (some "right", Node.mk "number_literal" (0,17) (0,18) (chars "1") [])]),
         (none, anon ";" (0,18) (0,19) ";")]),
     (none, anon "\x7d" (0,20) (0,21) "\x7d")]

def c8if : Node :=
  Node.mk "if_statement" (0,0) (0,21) (chars "if (x > 0) \x7b y = 1; \x7d")
    [(none, anon "if" (0,0) (0,2) "if"),
     (some "condition", c8paren),
     (some "consequence", c8block)]

/- A tree whose second visited node starts before the first one's start — the
traversal-order invariant is violated (claim C9). -/

def c9bad : Node :=
  Node.mk "translation_unit" (0,5) (0,9) (chars "")
    [(none, Node.mk "declaration" (0,1) (0,2) (chars "") [])]

/-! ## Theorems -/

namespace ProgramInstrumenter

theorem tailText_step (src : List Str) (l : Nat) (h : l < src.length) :
    tailText src l = getLine src l ++ ['\n'] ++ tailText src (l+1) := by
  unfold tailText getLine
  rw [List.drop_eq_getElem_cons h, List.map_cons, List.flatten_cons,
    List.getD_eq_getElem src [] h, List.append_assoc]

theorem tailText_ge (src : List Str) (l : Nat) (h : src.length ≤ l) :
    tailText src l = [] := by
  unfold tailText
  rw [List.drop_eq_nil_of_le h]
  rfl

theorem textFrom_zero (src : List Str) (l : Nat) :
    textFrom src (l, 0) = tailText src l := by
  unfold textFrom
  by_cases h : l < src.length
  · rw [if_pos h, tailText_step src l h]
    rfl
  · rw [if_neg h, tailText_ge src l (Nat.le_of_not_lt h)]

theorem textFrom_ge (src : List Str) (p : Coord) (h : src.length ≤ p.1) :
    textFrom src p = [] := by
  unfold textFrom
  rw [if_neg (Nat.not_lt.mpr h)]

theorem docText_eq_tailText (src : List Str) : docText src = tailText src 0 := rfl

/-- Splitting a drop at an intermediate take: the characters of `l[i:j]`
followed by those of `l[j:]` are exactly those of `l[i:]`. -/
theorem dropTakeDrop {α : Type} (l : List α) (i j : Nat) (h : i ≤ j) :
    (l.take j).drop i ++ l.drop j = l.drop i := by
  rw [List.drop_take]
  have h2 : l.drop j = (l.drop i).drop (j - i) := by
    rw [List.drop_drop]
    congr 1
    omega
  rw [h2, List.take_append_drop]

/-- The copied segment from `cur` to `pos` followed by the document from `pos`
is the document from `cur`: the loop copies exactly the original characters
between the two coordinates, in order, none dropped or duplicated. -/
theorem copySegment_textFrom (src : List Str) :
    ∀ (d : Nat) (cur pos : Coord), pos.1 - cur.1 = d → coordLe cur pos →
    pos.1 ≤ src.length →
    copySegment src cur pos ++ textFrom src pos = textFrom src cur := by
  intro d
  induction d with
  | zero =>
      intro cur pos hd hle hb
      have hline : cur.1 = pos.1 := by
        rcases hle with h | ⟨h, _⟩ <;> omega
      have hcols : cur.2 ≤ pos.2 := by
        rcases hle with h | ⟨_, h⟩ <;> omega
      unfold copySegment
      rw [if_neg (by omega : ¬ cur.1 < pos.1)]
      have hk : pos.1 - cur.1 = 0 := by omega
      rw [hk]
      simp only [copyLinesGo, List.nil_append]
      by_cases hin : pos.1 < src.length
      · unfold textFrom
        rw [if_pos hin, if_pos (by omega : cur.1 < src.length)]
        by_cases hc : cur.2 < pos.2
        · rw [if_pos hc]
          unfold pySlice pySliceFrom
          rw [hline, ← List.append_assoc, ← List.append_assoc,
            dropTakeDrop (getLine src pos.1) cur.2 pos.2 hcols]
        · have : cur.2 = pos.2 := by omega
          rw [if_neg hc, this, hline]
          rfl
      · have hLine : getLine src pos.1 = [] := by
          unfold getLine
          exact List.getD_eq_default src [] (by omega)
        rw [textFrom_ge src pos (by omega), textFrom_ge src cur (by omega)]
        by_cases hc : cur.2 < pos.2
        · rw [if_pos hc]
          unfold pySlice
          rw [hLine]
          simp
        · rw [if_neg hc]
          rfl
  | succ k ih =>
      intro cur pos hd hle hb
      have hlt : cur.1 < pos.1 := by omega
      have hrec : copySegment src cur pos
          = pySliceFrom (getLine src cur.1) cur.2 ++ ['\n']
            ++ copySegment src (cur.1+1, 0) pos := by
        unfold copySegment
        rw [if_pos hlt]
        have h1 : pos.1 - cur.1 = k + 1 := hd
        rw [h1]
        have h2 : pos.1 - (cur.1+1) = k := by omega
        simp only [copyLinesGo, h2, ite_self, List.append_assoc]
      rw [hrec, List.append_assoc, List.append_assoc]
      have hle2 : coordLe (cur.1+1, 0) pos := by
        unfold coordLe
        simp only
        omega
      rw [ih (cur.1+1, 0) pos (by omega) hle2 hb, textFrom_zero]
      unfold textFrom
      rw [if_pos (by omega : cur.1 < src.length)]
      simp [List.append_assoc]

/-- The reconstruction loop's output is the interleaving of the copied
original segments with the patch texts, in patch-list order. -/
theorem reconLoop_eq_interleave (src : List Str) :
    ∀ (ps : List Patch) (cur : Coord),
    reconLoop src cur ps
      = (List.zipWith (fun s (p : Patch) => s ++ p.2) (segs src cur ps) ps).flatten := by
  intro ps
  induction ps with
  | nil => intro cur; rfl
  | cons p rest ih =>
      intro cur
      obtain ⟨pos, txt⟩ := p
      by_cases h : coordLt cur pos <;>
        simp [reconLoop, segs, h, ih]

theorem segs_length (src : List Str) :
    ∀ (ps : List Patch) (cur : Coord), (segs src cur ps).length = ps.length := by
  intro ps
  induction ps with
  | nil => intro cur; rfl
  | cons p rest ih =>
      intro cur
      obtain ⟨pos, txt⟩ := p
      by_cases h : coordLt cur pos <;> simp [segs, h, ih]

/-- Concatenating the copied segments recovers the document between the start
cursor and the final cursor: no original character is dropped, reordered or
duplicated by the loop. -/
theorem segs_residual (src : List Str) :
    ∀ (ps : List Patch) (cur : Coord), (∀ p ∈ ps, p.1.1 ≤ src.length) →
    cur.1 ≤ src.length →
    (segs src cur ps).flatten ++ textFrom src (endCur cur ps) = textFrom src cur := by
  intro ps
  induction ps with
  | nil => intro cur _ _; simp [segs, endCur]
  | cons p rest ih =>
      intro cur hb hc
      obtain ⟨pos, txt⟩ := p
      have hposb : pos.1 ≤ src.length := hb (pos, txt) (List.mem_cons_self _ _)
      have hrest : ∀ q ∈ rest, q.1.1 ≤ src.length :=
        fun q hq => hb q (List.mem_cons_of_mem _ hq)
      by_cases h : coordLt cur pos
      · have hstep : endCur cur ((pos, txt) :: rest) = endCur pos rest := by
          unfold endCur
          rw [List.foldl_cons]
          simp only [if_pos h]
        simp only [segs, if_pos h, List.flatten_cons, hstep, List.append_assoc]
        rw [ih pos hrest hposb]
        exact copySegment_textFrom src (pos.1 - cur.1) cur pos rfl (coordLe_of_lt h) hposb
      · have hstep : endCur cur ((pos, txt) :: rest) = endCur cur rest := by
          unfold endCur
          rw [List.foldl_cons]
          simp only [if_neg h]
        simp only [segs, if_neg h, List.flatten_cons, hstep, List.nil_append]
        exact ih cur hrest hc

theorem endCur_append_sentinel (cur : Coord) (ps : List Patch) (L : Nat) (txt : Str) :
    L ≤ (endCur cur (ps ++ [((L, 0), txt)])).1 := by
  unfold endCur
  rw [List.foldl_append]
  set c := List.foldl (fun c p => if coordLt c p.1 then p.1 else c) cur ps with hc
  simp only [List.foldl_cons, List.foldl_nil]
  by_cases h : coordLt c (L, 0)
  · rw [if_pos h]
  · rw [if_neg h]
    unfold coordLt at h
    simp only [not_or, not_and, Nat.not_lt] at h
    omega

theorem insertSorted_perm (p : Patch) (l : List Patch) :
    List.Perm (insertSorted p l) (p :: l) := by
  induction l with
  | nil => exact List.Perm.refl _
  | cons q qs ih =>
      by_cases h : coordLt q.1 p.1
      · simp only [insertSorted, if_pos h]
        exact (ih.cons q).trans (List.Perm.swap p q qs)
      · simp only [insertSorted, if_neg h]
        exact List.Perm.refl _

theorem sortPatches_perm (l : List Patch) : List.Perm (sortPatches l) l := by
  induction l with
  | nil => exact List.Perm.refl _
  | cons p ps ih =>
      have h : sortPatches (p :: ps) = insertSorted p (sortPatches ps) := rfl
      rw [h]
      exact (insertSorted_perm p (sortPatches ps)).trans (ih.cons p)

theorem insertSorted_pairwise {p : Patch} : ∀ {l : List Patch},
    List.Pairwise (fun a b : Patch => coordLe a.1 b.1) l →
    List.Pairwise (fun a b : Patch => coordLe a.1 b.1) (insertSorted p l) := by
  intro l
  induction l with
  | nil => intro _; simp [insertSorted]
  | cons q qs ih =>
      intro hp
      rw [List.pairwise_cons] at hp
      obtain ⟨hq, hqs⟩ := hp
      by_cases h : coordLt q.1 p.1
      · simp only [insertSorted, if_pos h]
        rw [List.pairwise_cons]
        refine ⟨?_, ih hqs⟩
        intro a ha
        rcases List.mem_cons.mp ((insertSorted_perm p qs).mem_iff.mp ha) with h1 | h1
        · subst h1; exact coordLe_of_lt h
        · exact hq a h1
      · simp only [insertSorted, if_neg h]
        rw [List.pairwise_cons]
        refine ⟨?_, List.pairwise_cons.mpr ⟨hq, hqs⟩⟩
        intro a ha
        rcases List.mem_cons.mp ha with h1 | h1
        · subst h1; exact coordLe_of_not_lt h
        · exact coordLe_trans (coordLe_of_not_lt h) (hq a h1)

/-- The model's insertion sort is sorted by coordinate: together with
`sortPatches_perm` and the tie-stability built into `insertSorted` this
characterises Python's stable `sorted(..., key = lambda x: x[0])`. -/
theorem sortPatches_sorted (l : List Patch) :
    List.Pairwise (fun a b : Patch => coordLe a.1 b.1) (sortPatches l) := by
  induction l with
  | nil => simp [sortPatches]
  | cons p ps ih => exact insertSorted_pairwise ih

/-- The reconstruction loop's output decomposes fully: interleaving plus
residual, for any in-bounds patch list. -/
theorem segs_flatten_eq_docText (src : List Str) (ps : List Patch) (L : Nat)
    (hL : L = src.length) (hb : ∀ p ∈ ps, p.1.1 ≤ src.length) :
    (segs src (0,0) (ps ++ [((L, 0), [])])).flatten = docText src := by
  have hball : ∀ p ∈ ps ++ [((L, 0), ([] : Str))], p.1.1 ≤ src.length := by
    intro p hp
    rcases List.mem_append.mp hp with h1 | h1
    · exact hb p h1
    · rw [List.mem_singleton.mp h1]
      show L ≤ src.length
      omega
  have hres := segs_residual src (ps ++ [((L, 0), [])]) (0,0) hball (Nat.zero_le _)
  rw [textFrom_ge src _ (by rw [hL] at *; exact endCur_append_sentinel (0,0) ps src.length [])] at hres
  rw [List.append_nil] at hres
  rw [hres, textFrom_zero]
  exact (docText_eq_tailText src).symm

theorem docText_eq_intercalate (src : List Str) (h : src ≠ []) :
    docText src = List.intercalate ['\n'] src ++ ['\n'] := by
  induction src with
  | nil => exact absurd rfl h
  | cons a rest ih =>
      cases rest with
      | nil => simp [docText, List.intercalate]
      | cons b rest2 =>
          have hne : (b :: rest2 : List Str) ≠ [] := by simp
          have hstep : docText (a :: b :: rest2) = a ++ ['\n'] ++ docText (b :: rest2) := by
            simp [docText]
          rw [hstep, ih hne]
          have hint : List.intercalate ['\n'] (a :: b :: rest2)
              = a ++ ['\n'] ++ List.intercalate ['\n'] (b :: rest2) := by
            simp [List.intercalate]
          rw [hint]
          simp [List.append_assoc]

end ProgramInstrumenter

/-! ### Claim C5 -/

/-- C5 (counterexample): the variable-access analysis on the statement
`a[f(i)] = b.c + 1;` collects the index argument `i` as a target (the
subscript rule walks the index `f(i)`, and the call rule walks its argument
list, reaching the identifier `i`), so the write-target set is **not**
`{a[f(i)]}`; equally, on the expression `a[f(i)] + b.c` the collected set
contains `i` and is not `{a[f(i)], b.c}`. -/
theorem collectTargets_c5_cex :
    chars "i" ∈ collectTargets c5stmt
    ∧ chars "i" ∉ [chars "a[f(i)]"]
    ∧ chars "i" ∈ collectTargets c5expr
    ∧ chars "i" ∉ [chars "a[f(i)]", chars "b.c"] :=
  ⟨by decide, by decide, by decide, by decide⟩

/-- C5 (amended): the analysis on `a[f(i)] = b.c + 1;` yields the target set
`{i, a[f(i)], b.c}` — the whole subscript expression plus the identifiers
reached through the index call's arguments and the field access — and on
`a[f(i)] + b.c` it yields the same three-element set. -/
theorem collectTargets_c5 :
    collectTargets c5stmt = [chars "i", chars "a[f(i)]", chars "b.c"]
    ∧ collectTargets c5expr = [chars "i", chars "a[f(i)]", chars "b.c"] :=
  ⟨by decide, by decide⟩

/-! ### Claim C2 -/

/-- C2 (amended): for every expression statement the statement-exit hook emits
one observation, unconditionally, at the statement's end coordinate, carrying
the source text and 1-based start/end lines and no control marker; the
assumption field (one equality clause per written variable) and the
dot-joined scope path are attached if and only if the computed write-target
set is non-empty; and the written variables are always the emission's track
arguments. -/
theorem leave_expression_statement_spec (scope : List Str) (n : Node) :
    ∃ o : Observation,
      leave_expression_statement scope n = (n.endPoint, Emission.obs o (collectTargets n))
      ∧ o.sourcecode = n.text
      ∧ o.startline = 1 + (n.startPoint.1 : Int)
      ∧ o.endline = 1 + (n.endPoint.1 : Int)
      ∧ o.control = none
      ∧ o.assumption
          = (if collectTargets n ≠ [] then some (mkAssumption (collectTargets n)) else none)
      ∧ o.assumptionScope
          = (if collectTargets n ≠ [] then some (scopePath scope) else none) :=
  ⟨_, rfl, rfl, rfl, rfl, rfl, rfl, rfl⟩

/-- C2 (counterexample): the statement `f();` has an empty write-target set,
yet running the instrumenter over it still emits a post-statement observation
(at the end coordinate, without an assumption field) — refuting the claim's
"if and only if the write-target set is non-empty". -/
theorem leave_expression_statement_cex :
    collectTargets c2stmt = []
    ∧ runNode c2stmt (IState.mk 0 0 [] [])
        = some (IState.mk 0 4 []
            [((0,4), Emission.obs
                (Observation.mk (chars "f();") 1 1 none none none) [])]) :=
  ⟨by decide, by decide⟩

/-! ### Claim C4 -/

/-- C4 (amended): an expression statement that is a direct call to an
error-marker function makes the entry hook emit the error observation at the
statement's start coordinate (source text, 1-based lines, no assumption, no
track arguments); in addition, since the hook returns `True` and the
framework still runs the exit hook, the generic post-statement observation is
emitted at the statement's end coordinate as well (carrying an assumption
only if the statement's target set is non-empty — empty for an argumentless
error call), so the statement yields two observations, not one. -/
theorem error_statement_two_observations (scope : List Str) (n : Node)
    (tag : Option String) (st f : Node)
    (h1 : n.children.head? = some (tag, st))
    (h2 : st.type = "call_expression")
    (h3 : st.field "function" = some f)
    (h4 : f.text ∈ ERROR_FUNCS) :
    visit_expression_statement n
      = [(n.startPoint, Emission.obs
          (Observation.mk n.text (1 + (n.startPoint.1 : Int)) (1 + (n.endPoint.1 : Int))
            none none none) [])]
    ∧ (leave_expression_statement scope n).1 = n.endPoint
    ∧ isObs (n.endPoint, (leave_expression_statement scope n).2) = true
    ∧ obsAssumption (leave_expression_statement scope n).2
        = (if collectTargets n ≠ [] then some (mkAssumption (collectTargets n)) else none) := by
  refine ⟨?_, rfl, rfl, rfl⟩
  simp [visit_expression_statement, handle_error, h1, h2, h3, h4]

/-- C4 (witness): the amended theorem applied to the concrete statement
`reach_error();`. -/
theorem error_statement_two_observations_witness :
    visit_expression_statement c4stmt
      = [(c4stmt.startPoint, Emission.obs
          (Observation.mk c4stmt.text (1 + (c4stmt.startPoint.1 : Int))
            (1 + (c4stmt.endPoint.1 : Int)) none none none) [])]
    ∧ (leave_expression_statement [] c4stmt).1 = c4stmt.endPoint
    ∧ isObs (c4stmt.endPoint, (leave_expression_statement [] c4stmt).2) = true
    ∧ obsAssumption (leave_expression_statement [] c4stmt).2
        = (if collectTargets c4stmt ≠ [] then some (mkAssumption (collectTargets c4stmt))
           else none) :=
  error_statement_two_observations [] c4stmt none
    (Node.mk "call_expression" (0,0) (0,13) (chars "reach_error()")
      [(some "function", ident "reach_error" (0,0) (0,11)),
       (some "arguments",
        Node.mk "argument_list" (0,11) (0,13) (chars "()")
          [(none, anon "(" (0,11) (0,12) "("),
           (none, anon ")" (0,12) (0,13) ")")])])
    (ident "reach_error" (0,0) (0,11)) rfl rfl rfl (by decide)

/-- C4 (counterexample): running the instrumenter over the concrete statement
`reach_error();` records **two** observations for the statement — the error
observation at the start coordinate and the post-statement observation at the
end coordinate — not exactly one. -/
theorem error_statement_cex :
    (runNode c4stmt (IState.mk 0 0 [] [])).map (fun st => (st.ins.filter isObs).length)
      = some 2
    ∧ (runNode c4stmt (IState.mk 0 0 [] [])).map (fun st => st.ins.map Prod.fst)
      = some [(0,0), (0,14)] :=
  ⟨by decide, by decide⟩

/-! ### Claim C3 -/

/-- C3 (code bug, evaluated at the failing input `while (c) y = 1;`): the body
is not a compound statement, and `visit_while_statement` inserts the synthetic
opening brace at the body's **end** coordinate (0,16) — `pos =
consequence.end_point` in the source, where `visit_if_statement` uses
`consequence.start_point` — while the condition-true observation is emitted
at the body's start coordinate (0,10); the closing brace from the exit hook
lands at the body's end as well.  The claim (and the spec) places the opening
brace immediately *before* the body, at its start coordinate. -/
theorem while_brace_at_end_bug :
    visit_while_statement [] c3while
      = [((0,16), Emission.raw (chars "\x7b\n")),
         write_condition_node [] c3paren c3body true false]
    ∧ (write_condition_node [] c3paren c3body true false).1 = (0,10)
    ∧ c3body.startPoint = (0,10)
    ∧ c3body.endPoint = (0,16)
    ∧ leave_while_statement [] c3while
      = [((0,16), Emission.raw (chars "\n\x7d")),
         write_condition_node [] c3paren c3body false true]
    ∧ ((0,16) : Coord) ≠ c3body.startPoint :=
  ⟨by decide, by decide, by decide, by decide, by decide, by decide⟩

/-! ### Claim C6 -/

/-- C6 (counterexample): the recorded keyword entry `("inline", "__inline")`
applied to a text containing two occurrences of the pattern substitutes
**both** of them (since `re.sub` without a count replaces every match), while
the claim's single-first-match reading would leave the second occurrence
untouched. -/
theorem applyRestorations_cex :
    applyRestorations [(chars "inline", chars "__inline")] (chars "inline x inline")
      = chars "__inline x __inline"
    ∧ applyRestorationsFirstMatch [(chars "inline", chars "__inline")] (chars "inline x inline")
      = chars "__inline x inline"
    ∧ chars "__inline x __inline" ≠ chars "__inline x inline" :=
  ⟨by decide, by decide, by decide⟩

/-- C6 (amended): after instrumentation each recorded restoration entry is
applied in creation order and consumed exactly once, but each application
substitutes **every** non-overlapping match of its pattern in the transformed
output, left to right — not only the first; an entry whose pattern does not
occur leaves the text unchanged. -/
theorem applyRestorations_spec :
    (∀ (r : Str × Str) (rs : List (Str × Str)) (code : Str),
        applyRestorations (r :: rs) code = applyRestorations rs (pyReSub r.1 r.2 code))
    ∧ (∀ pat repl s, hasSub s pat = false → pat ≠ [] → pyReSub pat repl s = s)
    ∧ pyReSub (chars "inline") (chars "__inline") (chars "inline x inline")
        = chars "__inline x __inline" := by
  refine ⟨fun r rs code => rfl, ?_, by decide⟩
  intro pat repl s hno _
  unfold pyReSub
  have main : ∀ (fuel : Nat) (t : Str), hasSub t pat = false → pyReSubGo pat repl fuel t = t := by
    intro fuel
    induction fuel with
    | zero => intro t _; rfl
    | succ k ih =>
        intro t hno2
        cases t with
        | nil => rfl
        | cons c rest =>
            have hpre : isPrefixB pat (c :: rest) = false := by
              by_cases hp : isPrefixB pat (c :: rest) = true
              · exfalso
                have ha : afterSub pat (c :: rest) = some ((c :: rest).drop pat.length) := by
                  simp [afterSub, hp]
                unfold hasSub at hno2
                rw [ha] at hno2
                simp at hno2
              · simpa using hp
            have hstep : afterSub pat (c :: rest) = afterSub pat rest := by
              simp [afterSub, hpre]
            have hrest : hasSub rest pat = false := by
              unfold hasSub at hno2 ⊢
              rw [hstep] at hno2
              exact hno2
            have hgo : pyReSubGo pat repl (k+1) (c :: rest)
                = c :: pyReSubGo pat repl k rest := by
              simp [pyReSubGo, hpre]
            rw [hgo, ih rest hrest]
  exact main s.length s hno

/-! ### Claim C10 -/

/-- C10: in every emitted observation carrying an assumption — the
post-statement and the branch-condition emissions alike — the assumption
string is exactly the concatenation of one clause `<target> == (%d);` per
captured variable: every clause uses the decimal directive `%d` (the code
renders every live value with `%d`, with no type information consulted), and
because the clause list is joined with `";"` and terminated by an appended
empty element, the string always ends with a semicolon. -/
theorem assumption_format :
    (∀ vars : List Str,
        mkAssumption vars = (vars.map (fun v => v ++ chars " == (%d);")).flatten)
    ∧ (∀ (scope : List Str) (n : Node),
        obsAssumption (leave_expression_statement scope n).2
          = (if collectTargets n ≠ [] then some (mkAssumption (collectTargets n)) else none))
    ∧ (∀ (scope : List Str) (condition : Str) (tb : Bool) (vars : List Str)
        (pos : Coord) (sl el : Int), vars ≠ [] →
        obsAssumption (write_condition scope condition tb vars pos sl el).2
          = some (mkAssumption vars))
    ∧ (∀ (v : Str) (vs : List Str), ∃ t : Str, mkAssumption (v :: vs) = t ++ chars ";") := by
  have hcons : ∀ (x : Str) (l : List Str), l ≠ [] →
      List.intercalate (chars ";") (x :: l)
        = x ++ chars ";" ++ List.intercalate (chars ";") l := by
    intro x l h
    cases l with
    | nil => exact absurd rfl h
    | cons y tl =>
        show (List.intersperse (chars ";") (x :: y :: tl)).flatten = _
        rw [List.intersperse_cons_cons]
        show x ++ (chars ";" ++ (List.intersperse (chars ";") (y :: tl)).flatten) = _
        rw [List.append_assoc]
        rfl
  have hjoin : ∀ vars : List Str,
      mkAssumption vars = (vars.map (fun v => v ++ chars " == (%d);")).flatten := by
    intro vars
    induction vars with
    | nil => rfl
    | cons v vs ih =>
        unfold mkAssumption at ih ⊢
        rw [List.map_cons, List.cons_append,
          hcons (v ++ chars " == (%d)") (vs.map (fun w => w ++ chars " == (%d)") ++ [[]])
            (by simp), ih, List.map_cons, List.flatten_cons]
        have hsplit : (chars " == (%d);" : Str) = chars " == (%d)" ++ chars ";" := rfl
        rw [hsplit]
        simp [List.append_assoc]
  refine ⟨hjoin, fun scope n => rfl, ?_, ?_⟩
  · intro scope condition tb vars pos sl el h
    unfold write_condition obsAssumption
    simp only [if_pos h]
  · intro v vs
    induction vs generalizing v with
    | nil =>
        refine ⟨v ++ chars " == (%d)", ?_⟩
        rw [hjoin]
        have hsplit2 : (chars " == (%d);" : Str) = chars " == (%d)" ++ chars ";" := rfl
        rw [hsplit2]
        simp [List.append_assoc]
    | cons w ws ih =>
        obtain ⟨t, ht⟩ := ih w
        refine ⟨(v ++ chars " == (%d);") ++ t, ?_⟩
        rw [hjoin] at ht ⊢
        simp only [List.map_cons, List.flatten_cons] at ht ⊢
        rw [ht]
        simp [List.append_assoc]

/-- C6 (witness): the amended theorem's no-occurrence case applied to a
concrete pattern and text. -/
theorem applyRestorations_spec_witness :
    pyReSub (chars "zz") (chars "y") (chars "abc") = chars "abc" :=
  applyRestorations_spec.2.1 (chars "zz") (chars "y") (chars "abc") (by decide) (by decide)

/-- C10 (witness): the branch-condition case of the format theorem applied to
a concrete non-empty variable list. -/
theorem assumption_format_witness :
    obsAssumption (write_condition [] (chars "x") true [chars "x"] (0,0) 0 0).2
      = some (mkAssumption [chars "x"]) :=
  assumption_format.2.2.1 [] (chars "x") true [chars "x"] (0,0) 0 0 (by decide)

/-! ### Claim C8 -/

theorem isCondObs_raw (ctl : Str) (pos : Coord) (s : Str) :
    isCondObs ctl (pos, Emission.raw s) = false := rfl

theorem isCondObs_wcn_tt (scope : List Str) (condN consN : Node) (skip : Bool) :
    isCondObs (chars "condition-true")
      (write_condition_node scope condN consN true skip) = true := by
  simp [isCondObs, write_condition_node, write_condition]

theorem isCondObs_wcn_tf (scope : List Str) (condN consN : Node) (skip : Bool) :
    isCondObs (chars "condition-false")
      (write_condition_node scope condN consN true skip) = false := by
  simp [isCondObs, write_condition_node, write_condition]
  decide

theorem isCondObs_wcn_ft (scope : List Str) (condN consN : Node) (skip : Bool) :
    isCondObs (chars "condition-true")
      (write_condition_node scope condN consN false skip) = false := by
  simp [isCondObs, write_condition_node, write_condition]
  decide

theorem isCondObs_wcn_ff (scope : List Str) (condN consN : Node) (skip : Bool) :
    isCondObs (chars "condition-false")
      (write_condition_node scope condN consN false skip) = true := by
  simp [isCondObs, write_condition_node, write_condition]

/-- C8: for every `if` statement (condition and consequence present, the
consequence of usable shape), the patches emitted by the entry and exit hooks
contain exactly one condition observation marked `condition-true`; a
`condition-false` observation appears exactly when an `else` branch is
syntactically present — zero without `else`, exactly one with it. -/
theorem if_condition_observation_counts (scope : List Str) (n cond cons : Node)
    (hc : n.field "condition" = some cond)
    (hcons : n.field "consequence" = some cons)
    (hsh : cons.type ≠ "compound_statement" ∨ (cons.childAt 1).isSome = true) :
    (n.field "alternative" = none →
      ((visit_if_statement scope n ++ leave_if_statement n).filter
          (isCondObs (chars "condition-true"))).length = 1
      ∧ ((visit_if_statement scope n ++ leave_if_statement n).filter
          (isCondObs (chars "condition-false"))).length = 0)
    ∧ (∀ alt : Node, n.field "alternative" = some alt →
        (alt.type ≠ "compound_statement" ∨ (alt.childAt 1).isSome = true) →
        ((visit_if_statement scope n ++ leave_if_statement n).filter
            (isCondObs (chars "condition-true"))).length = 1
        ∧ ((visit_if_statement scope n ++ leave_if_statement n).filter
            (isCondObs (chars "condition-false"))).length = 1) := by
  constructor
  · intro halt
    unfold visit_if_statement leave_if_statement
    rw [hc, hcons, halt]
    by_cases h1 : cons.type = "compound_statement"
    · rcases hsh with h | h
      · exact absurd h1 h
      · obtain ⟨c1, hc1⟩ := Option.isSome_iff_exists.mp h
        simp [h1, hc1, List.filter_cons, isCondObs_wcn_tt, isCondObs_wcn_tf]
    · simp [h1, List.filter_cons, isCondObs_raw, isCondObs_wcn_tt, isCondObs_wcn_tf]
  · intro alt halt hsh2
    unfold visit_if_statement leave_if_statement
    rw [hc, hcons, halt]
    by_cases h1 : cons.type = "compound_statement"
    · rcases hsh with h | h
      · exact absurd h1 h
      · obtain ⟨c1, hc1⟩ := Option.isSome_iff_exists.mp h
        by_cases h2 : alt.type = "compound_statement"
        · rcases hsh2 with h3 | h3
          · exact absurd h2 h3
          · obtain ⟨a1, ha1⟩ := Option.isSome_iff_exists.mp h3
            simp [h1, hc1, h2, ha1, List.filter_cons, isCondObs_wcn_tt,
              isCondObs_wcn_tf, isCondObs_wcn_ft, isCondObs_wcn_ff]
        · simp [h1, hc1, h2, List.filter_cons, isCondObs_raw, isCondObs_wcn_tt,
            isCondObs_wcn_tf, isCondObs_wcn_ft, isCondObs_wcn_ff]
    · by_cases h2 : alt.type = "compound_statement"
      · rcases hsh2 with h3 | h3
        · exact absurd h2 h3
        · obtain ⟨a1, ha1⟩ := Option.isSome_iff_exists.mp h3
          simp [h1, h2, ha1, List.filter_cons, isCondObs_raw, isCondObs_wcn_tt,
            isCondObs_wcn_tf, isCondObs_wcn_ft, isCondObs_wcn_ff]
      · simp [h1, h2, List.filter_cons, isCondObs_raw, isCondObs_wcn_tt,
          isCondObs_wcn_tf, isCondObs_wcn_ft, isCondObs_wcn_ff]

/-- C8 (witness): the counting theorem applied to the concrete statement
`if (x > 0) { y = 1; }`, which has no `else`: one `condition-true`
observation, zero `condition-false`. -/
theorem if_condition_observation_counts_witness :
    ((visit_if_statement [] c8if ++ leave_if_statement c8if).filter
        (isCondObs (chars "condition-true"))).length = 1
    ∧ ((visit_if_statement [] c8if ++ leave_if_statement c8if).filter
        (isCondObs (chars "condition-false"))).length = 0 :=
  (if_condition_observation_counts [] c8if c8paren c8block rfl rfl
    (Or.inr (by decide))).1 rfl

/-! ### Claim C9 -/

theorem node_sizeOf_pos (n : Node) : 0 < sizeOf n := by
  cases n with
  | mk ty s e tx ch => simp only [Node.mk.sizeOf_spec]; omega

theorem sizeOf_lt_of_mem_children (ty : String) (s e : Coord) (tx : Str)
    {tc : Option String × Node} {ch : List (Option String × Node)}
    (h : tc ∈ ch) : sizeOf tc.2 < sizeOf (Node.mk ty s e tx ch) := by
  have h1 := List.sizeOf_lt_of_mem h
  obtain ⟨a, b⟩ := tc
  simp only [Node.mk.sizeOf_spec]
  simp at h1 ⊢
  omega

theorem entriesMono_append (a : List (Bool × Coord)) :
    ∀ (cur : Coord) (b : List (Bool × Coord)),
    entriesMono cur (a ++ b) = (entriesMono cur a && entriesMono (lastCoord cur a) b) := by
  induction a with
  | nil => intro cur b; simp [entriesMono, lastCoord]
  | cons hd tl ih =>
      intro cur b
      obtain ⟨be, p⟩ := hd
      simp only [List.cons_append, entriesMono, lastCoord, List.append_eq, ih p b,
        Bool.and_assoc]

theorem lastCoord_append (a : List (Bool × Coord)) :
    ∀ (cur : Coord) (b : List (Bool × Coord)),
    lastCoord cur (a ++ b) = lastCoord (lastCoord cur a) b := by
  induction a with
  | nil => intro cur b; rfl
  | cons hd tl ih =>
      intro cur b
      simp only [List.cons_append, lastCoord, List.append_eq, ih hd.2 b]

theorem evList_mk (ty : String) (s e : Coord) (tx : Str)
    (ch : List (Option String × Node)) :
    evList (Node.mk ty s e tx ch) = (true, s) :: (evListCh ch ++ [(false, e)]) := by
  simp [evList]

theorem lastCoord_evList (cur : Coord) (n : Node) :
    lastCoord cur (evList n) = n.endPoint := by
  cases n with
  | mk ty s e tx ch =>
      rw [evList_mk]
      simp only [lastCoord, lastCoord_append]
      rfl

/-- The location pass's traversal condition unfolded over one node: cursor ≤
start, then the children's entry events from the start coordinate (the final
exit event needs no check). -/
theorem entriesMono_evList (cur : Coord) (ty : String) (s e : Coord) (tx : Str)
    (ch : List (Option String × Node)) :
    entriesMono cur (evList (Node.mk ty s e tx ch))
      = (decide (coordLe cur s) && entriesMono s (evListCh ch)) := by
  rw [evList_mk]
  simp only [entriesMono, entriesMono_append]
  simp [entriesMono]

/-- The location pass succeeds exactly on event streams whose entry
coordinates never regress, and then ends at the node's end coordinate
(induction level: all nodes of size at most `k`). -/
theorem loc_aux : ∀ k : Nat,
    (∀ n : Node, sizeOf n ≤ k → ∀ cur : Coord,
      locRun n cur
        = (if entriesMono cur (evList n) = true then some n.endPoint else none))
    ∧ (∀ ch : List (Option String × Node), (∀ tc ∈ ch, sizeOf tc.2 ≤ k) →
      ∀ cur : Coord,
      locRunList ch cur
        = (if entriesMono cur (evListCh ch) = true
           then some (lastCoord cur (evListCh ch)) else none)) := by
  intro k
  induction k with
  | zero =>
      constructor
      · intro n hn
        exfalso
        have := node_sizeOf_pos n
        omega
      · intro ch hsz cur
        cases ch with
        | nil => simp [locRunList, evListCh, entriesMono, lastCoord]
        | cons hd tl =>
            exfalso
            have h1 := hsz hd (List.mem_cons_self _ _)
            have h2 := node_sizeOf_pos hd.2
            omega
  | succ k ih =>
      obtain ⟨ihn, ihl⟩ := ih
      have hnode : ∀ n : Node, sizeOf n ≤ k + 1 → ∀ cur : Coord,
          locRun n cur
            = (if entriesMono cur (evList n) = true then some n.endPoint else none) := by
        intro n hn cur
        cases n with
        | mk ty s e tx ch =>
            have hch : ∀ tc ∈ ch, sizeOf tc.2 ≤ k := by
              intro tc htc
              have h2 := sizeOf_lt_of_mem_children ty s e tx htc
              omega
            rw [entriesMono_evList]
            simp only [locRun]
            by_cases hc : coordLe cur s
            · rw [if_pos hc, ihl ch hch s]
              by_cases hm : entriesMono s (evListCh ch) = true
              · simp [hc, hm, Node.endPoint]
              · simp [hc, hm]
            · simp [hc]
      refine ⟨hnode, ?_⟩
      intro ch hsz
      induction ch with
      | nil => intro cur; simp [locRunList, evListCh, entriesMono, lastCoord]
      | cons hd tl ihtl =>
          intro cur
          obtain ⟨t, c⟩ := hd
          have hc1 : sizeOf c ≤ k + 1 := hsz (t, c) (List.mem_cons_self _ _)
          have htl : ∀ tc ∈ tl, sizeOf tc.2 ≤ k + 1 :=
            fun tc htc => hsz tc (List.mem_cons_of_mem _ htc)
          simp only [locRunList]
          rw [hnode c hc1 cur]
          have hev : evListCh ((t, c) :: tl) = evList c ++ evListCh tl := by
            simp [evListCh]
          rw [hev, entriesMono_append, lastCoord_append, lastCoord_evList]
          by_cases hm : entriesMono cur (evList c) = true
          · simp only [hm, if_true, Bool.true_and]
            exact ihtl htl c.endPoint
          · simp [hm]

/-- Natural well-orderedness is sufficient: the entry events of an ordered
tree never regress (induction level: all nodes of size at most `k`). -/
theorem ordered_aux : ∀ k : Nat,
    (∀ n : Node, sizeOf n ≤ k → nodeOrdered n = true → ∀ cur : Coord,
      coordLe cur n.startPoint → entriesMono cur (evList n) = true)
    ∧ (∀ ch : List (Option String × Node), (∀ tc ∈ ch, sizeOf tc.2 ≤ k) →
      ∀ cur : Coord, childrenOrdered cur ch = true →
      entriesMono cur (evListCh ch) = true) := by
  intro k
  induction k with
  | zero =>
      constructor
      · intro n hn
        exfalso
        have := node_sizeOf_pos n
        omega
      · intro ch hsz cur hord
        cases ch with
        | nil => simp [evListCh, entriesMono]
        | cons hd tl =>
            exfalso
            have h1 := hsz hd (List.mem_cons_self _ _)
            have h2 := node_sizeOf_pos hd.2
            omega
  | succ k ih =>
      obtain ⟨ihn, ihl⟩ := ih
      have hnode : ∀ n : Node, sizeOf n ≤ k + 1 → nodeOrdered n = true →
          ∀ cur : Coord, coordLe cur n.startPoint →
          entriesMono cur (evList n) = true := by
        intro n hn hord cur hcur
        cases n with
        | mk ty s e tx ch =>
            have hch : ∀ tc ∈ ch, sizeOf tc.2 ≤ k := by
              intro tc htc
              have h2 := sizeOf_lt_of_mem_children ty s e tx htc
              omega
            have hords : childrenOrdered s ch = true := by
              simp only [nodeOrdered, Bool.and_eq_true] at hord
              exact hord.2
            rw [entriesMono_evList]
            have hcur2 : coordLe cur s := hcur
            rw [decide_eq_true hcur2, Bool.true_and]
            exact ihl ch hch s hords
      refine ⟨hnode, ?_⟩
      intro ch hsz
      induction ch with
      | nil => intro cur hord; simp [evListCh, entriesMono]
      | cons hd tl ihtl =>
          intro cur hord
          obtain ⟨t, c⟩ := hd
          have hc1 : sizeOf c ≤ k + 1 := hsz (t, c) (List.mem_cons_self _ _)
          have htl : ∀ tc ∈ tl, sizeOf tc.2 ≤ k + 1 :=
            fun tc htc => hsz tc (List.mem_cons_of_mem _ htc)
          simp only [childrenOrdered, Bool.and_eq_true, decide_eq_true_eq] at hord
          obtain ⟨⟨hle, hordc⟩, hordtl⟩ := hord
          have hev : evListCh ((t, c) :: tl) = evList c ++ evListCh tl := by
            simp [evListCh]
          rw [hev, entriesMono_append, lastCoord_evList]
          rw [hnode c hc1 hordc cur hle, ihtl htl c.endPoint hordtl]
          rfl

/-- C9: the location pass asserts, at each node entry, that the start
coordinate is at least the current cursor and then moves the cursor there,
and moves the cursor to the end coordinate at node exit; it aborts (with no
result) exactly on trees whose entry-event stream regresses below the cursor
at some point, it never fails on a naturally well-ordered tree (ending with
the cursor at the root's end coordinate), and on a concrete out-of-order
tree the whole instrumentation pipeline aborts, producing no output. -/
theorem location_pass_monotonic :
    (∀ (n : Node) (cur : Coord),
        locRun n cur = none ↔ entriesMono cur (evList n) = false)
    ∧ (∀ n : Node, nodeOrdered n = true → ∀ cur : Coord, coordLe cur n.startPoint →
        locRun n cur = some n.endPoint)
    ∧ instrumentPipeline (chars "int;") [chars "int;"] c9bad = none := by
  have hmain : ∀ (n : Node) (cur : Coord),
      locRun n cur
        = (if entriesMono cur (evList n) = true then some n.endPoint else none) :=
    fun n cur => (loc_aux (sizeOf n)).1 n (Nat.le_refl _) cur
  refine ⟨?_, ?_, by decide⟩
  · intro n cur
    rw [hmain]
    by_cases hm : entriesMono cur (evList n) = true
    · simp [hm]
    · have hm2 : entriesMono cur (evList n) = false := by simpa using hm
      simp [hm2]
  · intro n hord cur hcur
    rw [hmain,
      if_pos ((ordered_aux (sizeOf n)).1 n (Nat.le_refl _) hord cur hcur)]

/-- C9 (witness): the never-fails direction applied to the concrete
well-ordered tree of `if (x > 0) { y = 1; }` from the initial cursor. -/
theorem location_pass_monotonic_witness :
    locRun c8if (0,0) = some c8if.endPoint :=
  location_pass_monotonic.2.1 c8if (by decide) (0,0) (by decide)

/-! ### Claim C7 -/

theorem coordLe_zero (p : Coord) : coordLe (0,0) p := by
  unfold coordLe
  simp only
  omega

theorem keywordStep_id (kw : Str) (code : Str) (r : List (Str × Str))
    (h : hasSub code (chars "__" ++ kw ++ chars " ") = false) :
    keywordStep kw (code, r) = (code, r) := by
  rw [List.append_assoc] at h
  simp [keywordStep, h]

/-- A quiet, well-ordered tree runs through the composed traversal without a
failure and without recording any instrumentation, moving only the cursor
(induction level: all nodes of size at most `k`). -/
theorem quiet_aux : ∀ k : Nat,
    (∀ n : Node, sizeOf n ≤ k → quietTree n = true → nodeOrdered n = true →
      ∀ st : IState, coordLe (st.line, st.lineOffset) n.startPoint →
      runNode n st = some (IState.mk n.endPoint.1 n.endPoint.2 st.scope st.ins))
    ∧ (∀ ch : List (Option String × Node), (∀ tc ∈ ch, sizeOf tc.2 ≤ k) →
      quietList ch = true → ∀ st : IState,
      childrenOrdered (st.line, st.lineOffset) ch = true →
      ∃ p : Coord, runChildren ch st = some (IState.mk p.1 p.2 st.scope st.ins)) := by
  intro k
  induction k with
  | zero =>
      constructor
      · intro n hn
        exfalso
        have := node_sizeOf_pos n
        omega
      · intro ch hsz hq st hord
        cases ch with
        | nil =>
            refine ⟨(st.line, st.lineOffset), ?_⟩
            cases st
            rfl
        | cons hd tl =>
            exfalso
            have h1 := hsz hd (List.mem_cons_self _ _)
            have h2 := node_sizeOf_pos hd.2
            omega
  | succ k ih =>
      obtain ⟨ihn, ihl⟩ := ih
      have hnode : ∀ n : Node, sizeOf n ≤ k + 1 → quietTree n = true →
          nodeOrdered n = true → ∀ st : IState,
          coordLe (st.line, st.lineOffset) n.startPoint →
          runNode n st = some (IState.mk n.endPoint.1 n.endPoint.2 st.scope st.ins) := by
        intro n hn hq hord st hcur
        cases n with
        | mk ty s e tx ch =>
            have hch : ∀ tc ∈ ch, sizeOf tc.2 ≤ k := by
              intro tc htc
              have h2 := sizeOf_lt_of_mem_children ty s e tx htc
              omega
            simp only [quietTree, Bool.and_eq_true] at hq
            obtain ⟨⟨hnotk, hdecl⟩, hql⟩ := hq
            have hmem : ¬ ty ∈ targetKinds := by simpa using hnotk
            simp only [targetKinds, List.mem_cons, List.not_mem_nil, or_false,
              not_or] at hmem
            obtain ⟨hne1, hne2, hne3, hne4, hne5⟩ := hmem
            have hords : childrenOrdered s ch = true := by
              simp only [nodeOrdered, Bool.and_eq_true] at hord
              exact hord.2
            simp only [Node.startPoint] at hcur
            simp only [Node.endPoint]
            simp only [runNode]
            rw [if_pos hcur]
            by_cases hfd : ty = "function_definition"
            · -- function definition: name pushed at entry, popped at exit
              rw [if_pos hfd] at hdecl
              cases hdn : fieldIn ch "declarator" with
              | none =>
                  rw [hdn] at hdecl
                  exact absurd (show (false : Bool) = true from hdecl) (by simp)
              | some decl =>
                  rw [hdn] at hdecl
                  have hdecl2 : (match decl.field "declarator" with
                      | none => false
                      | some fn => decide (fn.type = "identifier")) = true := hdecl
                  cases hfn : decl.field "declarator" with
                  | none =>
                      rw [hfn] at hdecl2
                      exact absurd (show (false : Bool) = true from hdecl2) (by simp)
                  | some fn =>
                      rw [hfn] at hdecl2
                      have hid : fn.type = "identifier" :=
                        of_decide_eq_true
                          (show decide (fn.type = "identifier") = true from hdecl2)
                      have hvf : visit_function_definition st.scope (Node.mk ty s e tx ch)
                          = (if fn.type = "identifier"
                             then some (st.scope ++ [fn.text],
                               decide (fn.text ∈ ERROR_FUNCS))
                             else none) := by
                        unfold visit_function_definition
                        rw [show Node.field (Node.mk ty s e tx ch) "declarator"
                            = some decl from hdn]
                        show (match decl.field "declarator" with
                              | none => none
                              | some fn2 =>
                                if fn2.type = "identifier"
                                then some (st.scope ++ [fn2.text],
                                  decide (fn2.text ∈ ERROR_FUNCS))
                                else none)
                            = _
                        rw [hfn]
                      have hvisit : instrVisit st.scope (Node.mk ty s e tx ch)
                          = some ([], decide (fn.text ∈ ERROR_FUNCS),
                              st.scope ++ [fn.text]) := by
                        unfold instrVisit
                        rw [if_pos (show (Node.mk ty s e tx ch).type
                            = "function_definition" from hfd)]
                        rw [hvf, if_pos hid]
                      have hleave : ∀ sc : List Str,
                          instrLeave (sc ++ [fn.text]) (Node.mk ty s e tx ch)
                            = ([], sc) := by
                        intro sc
                        unfold instrLeave
                        rw [if_pos (show (Node.mk ty s e tx ch).type
                            = "function_definition" from hfd)]
                        rw [List.dropLast_concat]
                      rw [hvisit]
                      by_cases hskip : fn.text ∈ ERROR_FUNCS
                      · simp [decide_eq_true hskip, hleave]
                      · have hskip2 : decide (fn.text ∈ ERROR_FUNCS) = false := by
                          simpa using hskip
                        obtain ⟨p, hp⟩ := ihl ch hch hql
                          (IState.mk s.1 s.2 (st.scope ++ [fn.text]) (st.ins ++ []))
                          (by simpa using hords)
                        simp only [List.append_nil] at hp
                        simp [hskip2, hleave, hp]
            · -- every other quiet kind: no patches, no scope change
              have hvisit : instrVisit st.scope (Node.mk ty s e tx ch)
                  = some ([], false, st.scope) := by
                unfold instrVisit
                rw [if_neg (show ¬ (Node.mk ty s e tx ch).type
                      = "function_definition" from hfd),
                  if_neg (show ¬ (Node.mk ty s e tx ch).type
                      = "expression_statement" from hne1),
                  if_neg (show ¬ (Node.mk ty s e tx ch).type
                      = "if_statement" from hne2),
                  if_neg (show ¬ (Node.mk ty s e tx ch).type
                      = "for_statement" from hne3),
                  if_neg (show ¬ (Node.mk ty s e tx ch).type
                      = "while_statement" from hne4),
                  if_neg (show ¬ (Node.mk ty s e tx ch).type
                      = "do_statement" from hne5)]
              have hleave : instrLeave st.scope (Node.mk ty s e tx ch)
                  = ([], st.scope) := by
                unfold instrLeave
                rw [if_neg (show ¬ (Node.mk ty s e tx ch).type
                      = "function_definition" from hfd),
                  if_neg (show ¬ (Node.mk ty s e tx ch).type
                      = "expression_statement" from hne1),
                  if_neg (show ¬ (Node.mk ty s e tx ch).type
                      = "if_statement" from hne2),
                  if_neg (show ¬ (Node.mk ty s e tx ch).type
                      = "for_statement" from hne3),
                  if_neg (show ¬ (Node.mk ty s e tx ch).type
                      = "while_statement" from hne4),
                  if_neg (show ¬ (Node.mk ty s e tx ch).type
                      = "do_statement" from hne5)]
              obtain ⟨p, hp⟩ := ihl ch hch hql
                (IState.mk s.1 s.2 st.scope (st.ins ++ []))
                (by simpa using hords)
              simp only [List.append_nil] at hp
              rw [hvisit]
              simp [hleave, hp]
      refine ⟨hnode, ?_⟩
      intro ch
      induction ch with
      | nil =>
          intro hsz hq st hord
          refine ⟨(st.line, st.lineOffset), ?_⟩
          cases st
          rfl
      | cons hd tl ihtl =>
          intro hsz hq st hord
          obtain ⟨t, c⟩ := hd
          have hc1 : sizeOf c ≤ k + 1 := hsz (t, c) (List.mem_cons_self _ _)
          have htl : ∀ tc ∈ tl, sizeOf tc.2 ≤ k + 1 :=
            fun tc htc => hsz tc (List.mem_cons_of_mem _ htc)
          simp only [quietList, Bool.and_eq_true] at hq
          obtain ⟨hqc, hqtl⟩ := hq
          simp only [childrenOrdered, Bool.and_eq_true, decide_eq_true_eq] at hord
          obtain ⟨⟨hle, hordc⟩, hordtl⟩ := hord
          simp only [runChildren]
          rw [hnode c hc1 hqc hordc st hle]
          obtain ⟨p, hp⟩ := ihtl htl hqtl
            (IState.mk c.endPoint.1 c.endPoint.2 st.scope st.ins)
            (by simpa using hordtl)
          simp only at hp
          exact ⟨p, hp⟩

/-- C7 (amended): for a source file that is lexically neutral for the
pre/post-transform (no comments to strip, none of the `__extension__`,
`__inline `/`__restrict `, `__attribute__`/`__const ` masking triggers) and
whose parse tree is well-ordered and contains none of the instrumented
statement kinds — **no expression statements**, no `if`/`for`/`while`/`do` —
with every function definition carrying an identifier-shaped declarator, the
full pipeline emits no instrumentation and the output is textually identical
to the input except for the prepended diagnostic-stream include line. -/
theorem quiet_pipeline (source : Str) (lines : List Str) (tree : Node)
    (hnc : remove_comments source = source)
    (hsrc : source = List.intercalate ['\n'] lines)
    (hext : hasSub source (chars "__extension__") = false)
    (hinl : hasSub source (chars "__inline ") = false)
    (hres : hasSub source (chars "__restrict ") = false)
    (hattr : hasSub source (chars "__attribute__") = false)
    (hconst : hasSub source (chars "__const ") = false)
    (hquiet : quietTree tree = true)
    (hord : nodeOrdered tree = true) :
    instrumentPipeline source lines tree
      = some (chars "#include <stdio.h>\n" ++ source) := by
  have hk1 : keywordStep (chars "inline") (source, []) = (source, []) :=
    keywordStep_id (chars "inline") source [] (by rw [show chars "__" ++ chars "inline" ++ chars " " = chars "__inline " from rfl]; exact hinl)
  have hk2 : keywordStep (chars "restrict") (source, []) = (source, []) :=
    keywordStep_id (chars "restrict") source [] (by rw [show chars "__" ++ chars "restrict" ++ chars " " = chars "__restrict " from rfl]; exact hres)
  have hrun : runNode tree (IState.mk 0 0 [] [])
      = some (IState.mk tree.endPoint.1 tree.endPoint.2 [] []) :=
    (quiet_aux (sizeOf tree)).1 tree (Nat.le_refl _) hquiet hord
      (IState.mk 0 0 [] []) (coordLe_zero tree.startPoint)
  simp only [instrumentPipeline, hnc, hext, hk1, hk2, hattr, hconst, hrun,
    Bool.or_self, Bool.false_eq_true, if_false, List.map_nil]
  unfold ProgramInstrumenter.code
  rw [if_pos rfl, ← hsrc]
  rfl

/-- C7 (witness): the amended theorem applied to the one-line declaration
`int x;` with its (quiet, well-ordered) parse tree. -/
theorem quiet_pipeline_witness :
    instrumentPipeline (chars "int x;") [chars "int x;"] c7quiet
      = some (chars "#include <stdio.h>\n" ++ chars "int x;") :=
  quiet_pipeline (chars "int x;") [chars "int x;"] c7quiet (by decide) (by decide)
    (by decide) (by decide) (by decide) (by decide) (by decide) (by decide) (by decide)

/-- C7 (counterexample): the file `x = 1;` contains no calls, branches or
loops, yet the pipeline's output is **not** the input plus the include line:
the expression statement receives a post-statement observation, so extra
text is inserted (and the reconstructor appends its trailing newline). -/
theorem quiet_pipeline_cex :
    (instrumentPipeline (chars "x = 1;") [chars "x = 1;"] c7tree).isSome = true
    ∧ instrumentPipeline (chars "x = 1;") [chars "x = 1;"] c7tree
        ≠ some (chars "#include <stdio.h>\n" ++ chars "x = 1;") :=
  ⟨by decide, by decide⟩

/-! ### Claim C1 -/

open ProgramInstrumenter in
/-- C1 (amended): for every document (as a list of lines) and every non-empty
patch list whose coordinates lie within the document, the reconstructor's
output interleaves, one for one, original-text segments with the stably-sorted
patch texts, and the segments concatenate to the document with every line —
including the last — terminated by a newline; the sorted patch list is a
permutation of the recorded one, so exactly the recorded texts are inserted
and no original character is dropped, reordered or duplicated.  With an empty
patch list the output is instead the lines joined by single newlines, i.e. the
same document except that the non-empty branch carries one extra trailing
newline that is not an inserted patch text. -/
theorem code_insertion_only (src : List Str) (ins : List Patch)
    (hne : ins ≠ []) (hb : ∀ p ∈ ins, p.1.1 ≤ src.length) :
    InsertionDecomposition src ins
    ∧ code src [] = List.intercalate ['\n'] src
    ∧ (src ≠ [] → docText src = List.intercalate ['\n'] src ++ ['\n']) := by
  refine ⟨⟨?_, ?_, segs_length src _ _, sortPatches_perm ins⟩, rfl,
    docText_eq_intercalate src⟩
  · unfold code
    rw [if_neg hne]
    exact reconLoop_eq_interleave src _ _
  · exact segs_flatten_eq_docText src (sortPatches ins) src.length rfl
      (fun p hp => hb p ((sortPatches_perm ins).mem_iff.mp hp))

open ProgramInstrumenter in
/-- C1 (witness): the amended theorem applied to the one-line document `ab`
with one patch inserting `X` at coordinate (0,1). -/
theorem code_insertion_only_witness :
    InsertionDecomposition [chars "ab"] [((0,1), chars "X")]
    ∧ code [chars "ab"] [] = List.intercalate ['\n'] [chars "ab"]
    ∧ ([chars "ab"] ≠ ([] : List Str) →
        docText [chars "ab"] = List.intercalate ['\n'] [chars "ab"] ++ ['\n']) :=
  code_insertion_only [chars "ab"] [((0,1), chars "X")] (by decide) (by decide)

open ProgramInstrumenter in
/-- C1 (counterexample): on the one-line document `a` with the single patch
`X` at (0,0) the reconstructor outputs `Xa\n`; deleting the one inserted span
`X` leaves `a\n`, which is not the original text `a` — the text the
reconstructor itself returns for the empty patch list — so the output is not
the original text with only the patch texts inserted: a trailing newline that
is not a recorded insertion has been added. -/
theorem code_insertion_only_cex :
    code [chars "a"] [((0,0), chars "X")] = chars "X" ++ chars "a\n"
    ∧ code [chars "a"] [] = chars "a"
    ∧ chars "a\n" ≠ chars "a" :=
  ⟨by decide, by decide, by decide⟩

end T2W
